import Mathlib

/-!
Verification of the LHEF (Les Houches Event File) reader/writer pair.

The Rust source (src/reader.rs, src/writer.rs, src/data.rs, src/lib.rs) is
shallowly embedded below.  Strings are modelled as lists of characters
(`Str`), the reader's line-buffered byte stream as a list of lines
(`List Str`, each line normally ending in a newline character, exactly what
`BufRead::read_line` hands back), and fallible operations return `Except`.
Machine integers (`i32`) are modelled as `Int`; the single place where the
source casts to `usize` (`NPRUP as usize`, `NUP as usize`) is modelled by an
explicit two's-complement cast `castUsize`.
-/

set_option maxHeartbeats 1000000

/-- Decidable equality for `Except`, so that concrete runs of the model can
be checked by `decide`. -/
instance {ε α : Type} [DecidableEq ε] [DecidableEq α] :
    DecidableEq (Except ε α) := fun x y =>
  match x, y with
  | .ok a, .ok b =>
    if h : a = b then .isTrue (by rw [h])
    else .isFalse (by intro hc; cases hc; exact h rfl)
  | .error a, .error b =>
    if h : a = b then .isTrue (by rw [h])
    else .isFalse (by intro hc; cases hc; exact h rfl)
  | .ok _, .error _ => .isFalse (by intro hc; cases hc)
  | .error _, .ok _ => .isFalse (by intro hc; cases hc)

namespace LHEF

/-- Strings, modelled as lists of characters (Rust `&str`/`String`).  All
slicing in the source happens at ASCII boundaries, so character lists and
byte strings agree on everything the code does. -/
abbrev Str := List Char

/-- Embed a Lean string literal. -/
def strOf (s : String) : Str := s.data

/-- Rust `char::is_whitespace`, restricted to the ASCII whitespace the format
uses (space, tab, newline, carriage return). -/
def isWs (c : Char) : Bool :=
  c == ' ' || c == '\t' || c == '\n' || c == '\r'

/-- Rust `str::trim_start`. -/
def trimStart (s : Str) : Str := s.dropWhile isWs

/-- Rust `str::trim_end`. -/
def trimEnd (s : Str) : Str := (s.reverse.dropWhile isWs).reverse

/-- Rust `str::trim`. -/
def trim (s : Str) : Str := trimEnd (trimStart s)

/-- Rust `str::starts_with` for a string pattern. -/
def startsWith : Str → Str → Bool
  | _, [] => true
  | [], _ :: _ => false
  | c :: s, p :: ps => c == p && startsWith s ps

/-- Rust `str::ends_with` for a single-character pattern. -/
def endsWithChar (s : Str) (c : Char) : Bool := s.getLast? == some c

/-- Helper for `splitOnChar`: Rust `str::split(sep)` with an accumulator for
the current piece (kept in reverse). -/
def splitOnCharAux (sep : Char) : Str → Str → List Str
  | [], acc => [acc.reverse]
  | c :: s, acc =>
      if c = sep then acc.reverse :: splitOnCharAux sep s []
      else splitOnCharAux sep s (c :: acc)

/-- Rust `str::split(sep)`: the pieces between occurrences of `sep`
(n separators yield n+1 pieces, empty pieces included). -/
def splitOnChar (sep : Char) (s : Str) : List Str := splitOnCharAux sep s []

/-- Helper for `splitWhitespace`, with fuel for structural recursion
(each step consumes at least one character, so `length + 1` fuel is always
enough). -/
def splitWsAux : Nat → Str → List Str
  | 0, _ => []
  | fuel + 1, s =>
    match s.dropWhile isWs with
    | [] => []
    | c :: rest =>
        ((c :: rest).takeWhile (fun x => !isWs x)) ::
          splitWsAux fuel ((c :: rest).dropWhile (fun x => !isWs x))

/-- Rust `str::split_whitespace`: the maximal whitespace-free tokens, in
order, with no empty tokens. -/
def splitWhitespace (s : Str) : List Str := splitWsAux (s.length + 1) s

/-- Split a stream of bytes into lines, each keeping its terminating newline
(a final newline-less fragment is kept as a last line); this is how the
reader's `read_line` loop carves up the writer's output. -/
def toLines : Str → List Str
  | [] => []
  | c :: s =>
    if c = '\n' then ['\n'] :: toLines s
    else
      match toLines s with
      | [] => [[c]]
      | l :: ls => (c :: l) :: ls

/-- Rust `str::lines`: pieces between newlines, without the newlines, and
without a trailing empty piece. -/
def linesOf (s : Str) : List Str :=
  let ps := splitOnChar '\n' s
  if ps.getLast? = some [] then ps.dropLast else ps

/-- `s.lines().last()`, totalised with the empty string (the source unwraps;
at every call site the accumulated string is nonempty). -/
def lastLine (s : Str) : Str := (linesOf s).getLast?.getD []

/-- `pop_line` from src/reader.rs: pop the last character, then keep popping
until the string is empty or ends in a newline. -/
def popLine (s : Str) : Str :=
  (((s.reverse.drop 1).dropWhile (fun c => !(c == '\n')))).reverse

/-- Read one line from the stream: `BufRead::read_line`.  An empty stream
returns the empty line (the 0-bytes-read end-of-file signal). -/
def readLine : List Str → Str × List Str
  | [] => ([], [])
  | l :: ls => (l, ls)

/-! ## Numeric field codec

The integer codec is Rust's `i32` `Display`/`FromStr` pair (plain decimal
with an optional sign).  The floating-point codec (`ryu` formatting,
`fast_float`/`Display` parsing-and-formatting) is external to this
repository.  Modelled from the spec: "converts text tokens to/from
... floating-point values with explicit round-trip fidelity
(shortest-representation float formatting so that `parse(format(x)) == x`)";
an `f64` is modelled by its 64-bit pattern (a `Nat`), the codec by an
injective decimal rendering together with its exact inverse, which is
precisely the round-trip contract the spec states.  "Bit-for-bit equality"
of floats is then literal equality of the modelled bit patterns. -/

/-- A 64-bit IEEE-754 value, identified with its bit pattern.  Modelled from
the spec (see the section comment above): the float codec is external
(`ryu`/`fast_float`), only its round-trip contract matters here. -/
abbrev F64 := Nat

/-- Decimal digits of a natural number (most significant first), with fuel
for structural recursion; `n + 1` fuel always suffices. -/
def natToStrAux : Nat → Nat → Str
  | 0, _ => []
  | fuel + 1, n =>
      if n < 10 then [Nat.digitChar n]
      else natToStrAux fuel (n / 10) ++ [Nat.digitChar (n % 10)]

/-- Decimal rendering of a natural number. -/
def natToStr (n : Nat) : Str := natToStrAux (n + 1) n

/-- Rust `i32` `Display`: decimal, `-` sign for negatives. -/
def intToStr (i : Int) : Str :=
  if i < 0 then '-' :: natToStr i.natAbs else natToStr i.toNat

/-- Value of a decimal digit character. -/
def digitVal (c : Char) : Nat := c.toNat - '0'.toNat

/-- Parse an unsigned decimal numeral: all characters must be digits and
there must be at least one. -/
def parseNat (s : Str) : Option Nat :=
  if s ≠ [] ∧ s.all Char.isDigit then
    some (s.foldl (fun acc c => 10 * acc + digitVal c) 0)
  else none

/-- Rust `i32::from_str`: an optional `+`/`-` sign followed by decimal
digits.  (The `i32` range check is not modelled; every value the writer
emits parses back unchanged.) -/
def parseInt (s : Str) : Option Int :=
  match s with
  | [] => none
  | c :: rest =>
    if c = '-' then (parseNat rest).map (fun n => -(n : Int))
    else if c = '+' then (parseNat rest).map (fun n => (n : Int))
    else (parseNat (c :: rest)).map (fun n => (n : Int))

/-- Modelled from the spec: the shortest-round-trip float formatter (`ryu`,
and the `Display` used for the run-info floats), rendering the modelled bit
pattern injectively. -/
def fmtF64 (x : F64) : Str := natToStr x

/-- Modelled from the spec: the float parser (`fast_float::parse`), the
exact inverse of `fmtF64` on its image. -/
def parseF64 (s : Str) : Option F64 := parseNat s

/-! ## Data model (src/data.rs) -/

/-- `XmlAttr = HashMap<String, String>`: modelled as an association list
with unique keys; `HashMap` iteration order is arbitrary in Rust, the model
fixes insertion order (the spec notes order is not semantically
meaningful). -/
abbrev XmlAttr := List (Str × Str)

/-- `HashMap::insert`: replace the value under an existing key, otherwise
append a new binding. -/
def attrInsert (m : XmlAttr) (k v : Str) : XmlAttr :=
  if m.any (fun p => p.1 == k) then
    m.map (fun p => if p.1 == k then (k, v) else p)
  else m ++ [(k, v)]

/-- Generator run information (`HEPRUP`, src/data.rs).  Fixed-size arrays
`[T; 2]` become pairs, `[f64; 5]` a quintuple. -/
structure HEPRUP where
  IDBMUP : Int × Int
  EBMUP : F64 × F64
  PDFGUP : Int × Int
  PDFSUP : Int × Int
  IDWTUP : Int
  NPRUP : Int
  XSECUP : List F64
  XERRUP : List F64
  XMAXUP : List F64
  LPRUP : List Int
  info : Str
  attr : XmlAttr
deriving DecidableEq

/-- Event information (`HEPEUP`, src/data.rs). -/
structure HEPEUP where
  NUP : Int
  IDRUP : Int
  XWGTUP : F64
  SCALUP : F64
  AQEDUP : F64
  AQCDUP : F64
  IDUP : List Int
  ISTUP : List Int
  MOTHUP : List (Int × Int)
  ICOLUP : List (Int × Int)
  PUP : List (F64 × F64 × F64 × F64 × F64)
  VTIMUP : List F64
  SPINUP : List F64
  info : Str
  attr : XmlAttr
deriving DecidableEq

mutual
/-- `XmlTree = xmltree::Element`: name, attributes, ordered children, text.
(The unused `prefix`/`namespace` bookkeeping fields of the external crate do
not influence the writer and are omitted.)  Children are a separate mutual
inductive so that the serializer below is structurally recursive. -/
inductive XmlTree where
  | node (name : Str) (attributes : List (Str × Str)) (children : XmlForest)
      (text : Option Str)

/-- A list of xml subtrees (the `children` vector). -/
inductive XmlForest where
  | nil
  | cons (t : XmlTree) (f : XmlForest)
end

/-- Whether a forest of children is empty (`Vec::is_empty`). -/
def XmlForest.isEmpty : XmlForest → Bool
  | .nil => true
  | .cons _ _ => false

/-! ## Tag-string constants (src/lib.rs lines 19-28) -/

def LHEF_TAG_OPEN : Str := strOf "<LesHouchesEvents version="
def COMMENT_START : Str := strOf "<!--"
def COMMENT_END : Str := strOf "-->"
def HEADER_START : Str := strOf "<header"
def HEADER_END : Str := strOf "</header>"
def INIT_START : Str := strOf "<init"
def INIT_END : Str := strOf "</init>"
def EVENT_START : Str := strOf "<event"
def EVENT_END : Str := strOf "</event>"
def LHEF_LAST_LINE : Str := strOf "</LesHouchesEvents>"

/-- The `as usize` cast applied to `NPRUP`/`NUP` (`i32` → 64-bit `usize`,
two's complement), used both by the reader's `Vec::with_capacity` calls and
by the writer's length checks. -/
def castUsize (n : Int) : Nat := (n % (2 ^ 64)).toNat

/-! ## Reader (src/reader.rs) -/

/-- The reader's error taxonomy (`ParseError`, src/reader.rs lines 19-30),
extended with one constructor that is NOT part of the source enum:
`CapacityOverflow` stands for the "capacity overflow" panic of the
`Vec::with_capacity(count as usize)` calls in `parse_init`/`parse_event`
(an abort, not an `Err` return; it is kept as a distinguished terminal
outcome so that no `HEPRUP`/`HEPEUP` is ever produced on that path). -/
inductive ParseError where
  | BadFirstLine (line : Str)
  | BadHeaderStart (line : Str)
  | BadXmlTag (line : Str)
  | BadEventStart (line : Str)
  | MissingEntry (entry : Str)
  | ConversionError (entry : Str)
  | UnsupportedVersion (version : Str)
  | MissingVersion
  | EndOfFile (block : Str)
  | CapacityOverflow
deriving DecidableEq

/-- `parse_version` (src/reader.rs lines 103-127): read one line, split the
trimmed line on `"`, require the piece before the first quote to equal the
opening-tag literal, the quoted piece to be a supported version, and the
piece after the closing quote to be exactly `>`. -/
def parse_version (stream : List Str) : Except ParseError Str × List Str :=
  let (first_line, s) := readLine stream
  let entries := splitOnChar '"' (trim first_line)
  if entries.head? ≠ some LHEF_TAG_OPEN then
    (.error (.BadFirstLine first_line), s)
  else
    match entries[1]? with
    | none => (.error .MissingVersion, s)
    | some v =>
      if v = strOf "1.0" ∨ v = strOf "2.0" ∨ v = strOf "3.0" then
        if entries[2]? ≠ some (strOf ">") then
          (.error (.BadFirstLine first_line), s)
        else (.ok v, s)
      else (.error (.UnsupportedVersion v), s)

/-- `read_lines_until` (src/reader.rs lines 162-175): keep appending whole
lines to the accumulator until the last accumulated line, trimmed, equals
`stop`; end of stream is an `EndOfFile "header"` error. -/
def read_lines_until (stop : Str) (acc : Str) :
    List Str → Except ParseError Str × List Str
  | [] => (.error (.EndOfFile (strOf "header")), [])
  | l :: ls =>
      if trim (lastLine (acc ++ l)) = stop then (.ok (acc ++ l), ls)
      else read_lines_until stop (acc ++ l) ls

/-- One `loop` pass structure of `parse_header` (src/reader.rs lines
129-153), with fuel (each pass consumes at least one line, so
`stream length + 1` fuel is always enough; the fuel-exhaustion branch is
unreachable from `parse_header`).  The structured sub-header is handed to
the external `XmlTree::parse` black box; the model keeps the raw
accumulated text it would receive. -/
def parse_headerAux : Nat → Str → Option Str → List Str →
    Except ParseError (Str × Option Str × Str) × List Str
  | 0, _, _, s => (.error (.EndOfFile (strOf "header")), s)
  | fuel + 1, header, xml, stream =>
    let (header_text, s) := readLine stream
    if startsWith (trimStart header_text) COMMENT_START then
      if trim header_text ≠ COMMENT_START then
        (.error (.BadHeaderStart header_text), s)
      else
        match read_lines_until COMMENT_END header_text s with
        | (.ok acc, s') => parse_headerAux fuel acc xml s'
        | (.error e, s') => (.error e, s')
    else if startsWith (trimStart header_text) HEADER_START then
      match read_lines_until HEADER_END header_text s with
      | (.ok acc, s') => parse_headerAux fuel header (some acc) s'
      | (.error e, s') => (.error e, s')
    else if startsWith (trimStart header_text) INIT_START then
      (.ok (header, xml, header_text), s)
    else (.error (.BadHeaderStart header_text), s)

/-- `parse_header` (src/reader.rs lines 129-153): returns the comment
header text, the raw structured sub-header text (if any) and the unconsumed
run-info opening line. -/
def parse_header (stream : List Str) :
    Except ParseError (Str × Option Str × Str) × List Str :=
  parse_headerAux (stream.length + 1) [] none stream

/-- `extract_xml_attr_str` (src/reader.rs lines 208-222): trim the tag,
require a trailing `>`, cut it off, and return everything after the first
whitespace (trimmed at the front); no whitespace means no attribute text. -/
def extract_xml_attr_str (xml_tag : Str) : Except ParseError Str :=
  let tag := trim xml_tag
  if ¬ endsWithChar tag '>' then .error (.BadXmlTag xml_tag)
  else
    let tag1 := tag.dropLast
    match tag1.findIdx? isWs with
    | none => .ok []
    | some idx => .ok (trimStart (tag1.drop (idx + 1)))

/-- `next_attr` (src/reader.rs lines 229-258): scan one `name=<quote>value
<quote>` attribute off the front of the attribute text, or report that no
further name remains. -/
def next_attr (attr_str : Str) :
    Except ParseError (Option (Str × Str) × Str) :=
  let rem := attr_str
  match rem.findIdx? (fun c => isWs c || c == '=') with
  | none => .ok (none, rem)
  | some idx =>
    let name := rem.take idx
    let rem1 := trimStart (rem.drop name.length)
    if ¬ startsWith rem1 (strOf "=") then .error (.BadXmlTag attr_str)
    else
      let rem2 := trimStart (rem1.drop 1)
      match rem2.head? with
      | none => .error (.BadXmlTag attr_str)
      | some quote =>
        if quote ≠ '\'' ∧ quote ≠ '"' then .error (.BadXmlTag attr_str)
        else
          let rem3 := rem2.drop 1
          match rem3.findIdx? (fun c => c == quote) with
          | none => .error (.BadXmlTag attr_str)
          | some vidx =>
            let value := rem3.take vidx
            .ok (some (name, value), trimStart (rem3.drop (value.length + 1)))

/-- The attribute loop of `extract_xml_attr` (src/reader.rs lines 260-275),
with fuel (each parsed attribute consumes at least three characters, so
`length + 1` fuel is always enough; the fuel-exhaustion branch is
unreachable from `extract_xml_attr`). -/
def extract_attrs : Nat → Str → XmlAttr → Except ParseError XmlAttr
  | 0, _, attr => .ok attr
  | fuel + 1, attr_str, attr =>
    match next_attr attr_str with
    | .error e => .error e
    | .ok (none, _) => .ok attr
    | .ok (some (n, v), rem) => extract_attrs fuel rem (attrInsert attr n v)

/-- `extract_xml_attr` (src/reader.rs lines 260-275). -/
def extract_xml_attr (xml_tag : Str) : Except ParseError XmlAttr :=
  match extract_xml_attr_str xml_tag with
  | .error e => .error e
  | .ok s => extract_attrs (s.length + 1) s []

/-- `parse` (src/reader.rs lines 177-191) at type `i32`: a missing token is
`MissingEntry` with the field name, an unparsable token `ConversionError`
with the token. -/
def parseEntry (name : Str) (text : Option Str) : Except ParseError Int :=
  match text with
  | none => .error (.MissingEntry name)
  | some t =>
    match parseInt t with
    | some v => .ok v
    | none => .error (.ConversionError t)

/-- `parse_f64` (src/reader.rs lines 193-206). -/
def parseEntryF64 (name : Str) (text : Option Str) : Except ParseError F64 :=
  match text with
  | none => .error (.MissingEntry name)
  | some t =>
    match parseF64 t with
    | some v => .ok v
    | none => .error (.ConversionError t)

/-- The fixed scalar record of the init block (src/reader.rs lines 283-302):
the successive `entries.next()` calls of the source are the successive
tokens of the whitespace-split line. -/
def parseInitRecord (ts : List Str) :
    Except ParseError
      ((Int × Int) × (F64 × F64) × (Int × Int) × (Int × Int) × Int × Int) := do
  let idbmup1 ← parseEntry (strOf "IDBMUP(1)") ts[0]?
  let idbmup2 ← parseEntry (strOf "IDBMUP(2)") ts[1]?
  let ebmup1 ← parseEntryF64 (strOf "EBMUP(1)") ts[2]?
  let ebmup2 ← parseEntryF64 (strOf "EBMUP(2)") ts[3]?
  let pdfgup1 ← parseEntry (strOf "PDFGUP(1)") ts[4]?
  let pdfgup2 ← parseEntry (strOf "PDFGUP(2)") ts[5]?
  let pdfsup1 ← parseEntry (strOf "PDFSUP(1)") ts[6]?
  let pdfsup2 ← parseEntry (strOf "PDFSUP(2)") ts[7]?
  let idwtup ← parseEntry (strOf "IDWTUP") ts[8]?
  let nprup ← parseEntry (strOf "NPRUP") ts[9]?
  return ((idbmup1, idbmup2), (ebmup1, ebmup2), (pdfgup1, pdfgup2),
    (pdfsup1, pdfsup2), idwtup, nprup)

/-- One subprocess line of the `for i in 0..NPRUP` loop of `parse_init`
(src/reader.rs lines 307-318); `i` is the zero-based iteration counter used
in the error field names. -/
def parseSubprocessLine (i : Nat) (ts : List Str) :
    Except ParseError (F64 × F64 × F64 × Int) := do
  let xs ← parseEntryF64 (strOf "XSECUP(" ++ natToStr (i + 1) ++ strOf ")") ts[0]?
  let xe ← parseEntryF64 (strOf "XERRUP(" ++ natToStr (i + 1) ++ strOf ")") ts[1]?
  let xm ← parseEntryF64 (strOf "XMAXUP(" ++ natToStr (i + 1) ++ strOf ")") ts[2]?
  let lp ← parseEntry (strOf "LPRUP(" ++ natToStr (i + 1) ++ strOf ")") ts[3]?
  return (xs, xe, xm, lp)

/-- The `for i in 0..NPRUP` loop of `parse_init` (src/reader.rs lines
307-318): one subprocess line per iteration. -/
def parse_subprocesses : Nat → Nat → List Str →
    Except ParseError (List F64 × List F64 × List F64 × List Int) × List Str
  | 0, _, s => (.ok ([], [], [], []), s)
  | n + 1, i, s =>
    match parseSubprocessLine i (splitWhitespace (readLine s).1) with
    | .error e => (.error e, (readLine s).2)
    | .ok (xs, xe, xm, lp) =>
      match parse_subprocesses n (i + 1) (readLine s).2 with
      | (.error e, s') => (.error e, s')
      | (.ok (XS, XE, XM, LP), s') =>
        (.ok (xs :: XS, xe :: XE, xm :: XM, lp :: LP), s')

/-- The free-text info loop of `parse_init` (src/reader.rs lines 319-328):
accumulate whole lines until the last accumulated line equals `</init>`
(no trimming here, unlike the event loop), then drop that closing line. -/
def init_info_lines (info : Str) :
    List Str → Except ParseError Str × List Str
  | [] => (.error (.EndOfFile (strOf "init")), [])
  | l :: ls =>
      if lastLine (info ++ l) = INIT_END then (.ok (popLine (info ++ l)), ls)
      else init_info_lines (info ++ l) ls

/-- `parse_init` (src/reader.rs lines 278-344).  After the record line
parses, the source calls `Vec::with_capacity(NPRUP as usize)` four times
(element sizes 8, 8, 8 and 4 bytes); `with_capacity` panics with "capacity
overflow" when the requested capacity exceeds `isize::MAX` bytes, i.e. when
`8 * (NPRUP as usize) > 2^63 - 1` — in particular for every negative `i32`
count, whose cast is at least `2^64 - 2^31`. -/
def parse_init (init_open : Str) (stream : List Str) :
    Except ParseError HEPRUP × List Str :=
  match parseInitRecord (splitWhitespace (readLine stream).1) with
  | .error e => (.error e, (readLine stream).2)
  | .ok (idbmup, ebmup, pdfgup, pdfsup, idwtup, nprup) =>
    if 2 ^ 63 - 1 < 8 * castUsize nprup then
      (.error .CapacityOverflow, (readLine stream).2)
    else
    match parse_subprocesses nprup.toNat 0 (readLine stream).2 with
    | (.error e, s') => (.error e, s')
    | (.ok (xsecup, xerrup, xmaxup, lprup), s') =>
      match init_info_lines [] s' with
      | (.error e, s'') => (.error e, s'')
      | (.ok info, s'') =>
        match extract_xml_attr init_open with
        | .error e => (.error e, s'')
        | .ok attr =>
          (.ok ⟨idbmup, ebmup, pdfgup, pdfsup, idwtup, nprup,
            xsecup, xerrup, xmaxup, lprup, info, attr⟩, s'')

/-- The fixed scalar record of an event block (src/reader.rs lines
351-359). -/
def parseEventRecord (ts : List Str) :
    Except ParseError (Int × Int × F64 × F64 × F64 × F64) := do
  let nup ← parseEntry (strOf "NUP") ts[0]?
  let idrup ← parseEntry (strOf "IDRUP") ts[1]?
  let xwgtup ← parseEntryF64 (strOf "XWGTUP") ts[2]?
  let scalup ← parseEntryF64 (strOf "SCALUP") ts[3]?
  let aqedup ← parseEntryF64 (strOf "AQEDUP") ts[4]?
  let aqcdup ← parseEntryF64 (strOf "AQCDUP") ts[5]?
  return (nup, idrup, xwgtup, scalup, aqedup, aqcdup)

/-- One particle line of the `for i in 0..NUP` loop of `parse_event`
(src/reader.rs lines 367-392). -/
def parseParticleLine (i : Nat) (ts : List Str) :
    Except ParseError
      (Int × Int × (Int × Int) × (Int × Int) ×
        (F64 × F64 × F64 × F64 × F64) × F64 × F64) := do
  let idup ← parseEntry (strOf "IDUP(" ++ natToStr (i + 1) ++ strOf ")") ts[0]?
  let istup ← parseEntry (strOf "ISTUP(" ++ natToStr (i + 1) ++ strOf ")") ts[1]?
  let moth1 ← parseEntry (strOf "MOTHUP(" ++ natToStr (i + 1) ++ strOf ", 1)") ts[2]?
  let moth2 ← parseEntry (strOf "MOTHUP(" ++ natToStr (i + 1) ++ strOf ", 2)") ts[3]?
  let icol1 ← parseEntry (strOf "ICOLUP(" ++ natToStr (i + 1) ++ strOf ", 1)") ts[4]?
  let icol2 ← parseEntry (strOf "ICOLUP(" ++ natToStr (i + 1) ++ strOf ", 2)") ts[5]?
  let pup1 ← parseEntryF64 (strOf "PUP(" ++ natToStr (i + 1) ++ strOf ", 1)") ts[6]?
  let pup2 ← parseEntryF64 (strOf "PUP(" ++ natToStr (i + 1) ++ strOf ", 2)") ts[7]?
  let pup3 ← parseEntryF64 (strOf "PUP(" ++ natToStr (i + 1) ++ strOf ", 3)") ts[8]?
  let pup4 ← parseEntryF64 (strOf "PUP(" ++ natToStr (i + 1) ++ strOf ", 4)") ts[9]?
  let pup5 ← parseEntryF64 (strOf "PUP(" ++ natToStr (i + 1) ++ strOf ", 5)") ts[10]?
  let vtimup ← parseEntryF64 (strOf "VTIMUP(" ++ natToStr (i + 1) ++ strOf ")") ts[11]?
  let spinup ← parseEntryF64 (strOf "SPINUP(" ++ natToStr (i + 1) ++ strOf ")") ts[12]?
  return (idup, istup, (moth1, moth2), (icol1, icol2),
    (pup1, pup2, pup3, pup4, pup5), vtimup, spinup)

/-- The `for i in 0..NUP` particle loop of `parse_event` (src/reader.rs
lines 367-392). -/
def parse_particles : Nat → Nat → List Str →
    Except ParseError
      (List Int × List Int × List (Int × Int) × List (Int × Int) ×
        List (F64 × F64 × F64 × F64 × F64) × List F64 × List F64) × List Str
  | 0, _, s => (.ok ([], [], [], [], [], [], []), s)
  | n + 1, i, s =>
    match parseParticleLine i (splitWhitespace (readLine s).1) with
    | .error e => (.error e, (readLine s).2)
    | .ok (idup, istup, moth, icol, pup, vtimup, spinup) =>
      match parse_particles n (i + 1) (readLine s).2 with
      | (.error e, s') => (.error e, s')
      | (.ok (ID, IS, MO, IC, PU, VT, SP), s') =>
        (.ok (idup :: ID, istup :: IS, moth :: MO, icol :: IC,
          pup :: PU, vtimup :: VT, spinup :: SP), s')

/-- The free-text info loop of `parse_event` (src/reader.rs lines 393-402):
like the init one, but the closing-tag comparison trims the line. -/
def event_info_lines (info : Str) :
    List Str → Except ParseError Str × List Str
  | [] => (.error (.EndOfFile (strOf "event")), [])
  | l :: ls =>
      if trim (lastLine (info ++ l)) = EVENT_END then
        (.ok (popLine (info ++ l)), ls)
      else event_info_lines (info ++ l) ls

/-- `parse_event` (src/reader.rs lines 347-421).  After the record line
parses, the source calls `Vec::with_capacity(NUP as usize)` seven times
(element sizes 4, 4, 8, 8, 40, 8 and 8 bytes — `PUP` holds `[f64; 5]`);
the calls abort with a "capacity overflow" panic exactly when the largest
requested byte capacity exceeds `isize::MAX`, i.e. when
`40 * (NUP as usize) > 2^63 - 1` — in particular for every negative `i32`
count. -/
def parse_event (event_open : Str) (stream : List Str) :
    Except ParseError HEPEUP × List Str :=
  match parseEventRecord (splitWhitespace (readLine stream).1) with
  | .error e => (.error e, (readLine stream).2)
  | .ok (nup, idrup, xwgtup, scalup, aqedup, aqcdup) =>
    if 2 ^ 63 - 1 < 40 * castUsize nup then
      (.error .CapacityOverflow, (readLine stream).2)
    else
    match parse_particles nup.toNat 0 (readLine stream).2 with
    | (.error e, s') => (.error e, s')
    | (.ok (idup, istup, mothup, icolup, pup, vtimup, spinup), s') =>
      match event_info_lines [] s' with
      | (.error e, s'') => (.error e, s'')
      | (.ok info, s'') =>
        match extract_xml_attr event_open with
        | .error e => (.error e, s'')
        | .ok attr =>
          (.ok ⟨nup, idrup, xwgtup, scalup, aqedup, aqcdup,
            idup, istup, mothup, icolup, pup, vtimup, spinup,
            info, attr⟩, s'')

/-- The `Reader` value built by `Reader::new` (src/reader.rs lines 10-17):
version, comment header, structured sub-header (kept as the raw text handed
to the external tree parser) and run information. -/
structure ReaderM where
  version : Str
  header : Str
  xml_header : Option Str
  heprup : HEPRUP
deriving DecidableEq

/-- `Reader::new` (src/reader.rs lines 42-53). -/
def readerNew (stream : List Str) : Except ParseError ReaderM × List Str :=
  match parse_version stream with
  | (.error e, s) => (.error e, s)
  | (.ok v, s) =>
    match parse_header s with
    | (.error e, s') => (.error e, s')
    | (.ok (header, xml, init_open), s') =>
      match parse_init init_open s' with
      | (.error e, s'') => (.error e, s'')
      | (.ok hr, s'') => (.ok ⟨v, header, xml, hr⟩, s'')

/-- `Reader::hepeup` (src/reader.rs lines 90-100): dispatch on the next
line — an event block, the outer closing tag (end of stream, `none`), or a
`BadEventStart` error. -/
def readerHepeup (stream : List Str) :
    Except ParseError (Option HEPEUP) × List Str :=
  let (line, s) := readLine stream
  if startsWith line EVENT_START then
    match parse_event line s with
    | (.ok e, s') => (.ok (some e), s')
    | (.error err, s') => (.error err, s')
  else if trim line = LHEF_LAST_LINE then (.ok none, s)
  else (.error (.BadEventStart line), s)

/-! ## Writer (src/writer.rs)

The output stream is modelled as the string of bytes written so far; the
possibility of an underlying I/O failure in `write_all` is modelled by a
boolean `wok` passed to each call ( `true` = this call's write succeeds, in
which case the bytes are appended; `false` = it fails, in which case — as
with a failed Rust `write_all` — the bytes that actually reached the stream
are unspecified and the model appends none).  `fmt::Write` into the local
`String` buffers cannot fail and is modelled as pure concatenation. -/

/-- `WriterState` (src/writer.rs lines 43-53). -/
inductive WriterState where
  | ExpectingHeaderOrInit
  | ExpectingEventOrFinish
  | Finished
  | Failed
deriving DecidableEq

/-- The writer's error taxonomy: `WriteError` (src/writer.rs lines 55-61)
plus `Io` for a propagated `std::io::Error`. -/
inductive WError where
  | MismatchedSubprocesses
  | MismatchedParticles
  | BadState (state : WriterState) (attempt : Str)
  | WriteToFailed
  | Io
deriving DecidableEq

/-- The `Writer` value: output written so far and protocol state. -/
structure WriterM where
  out : Str
  state : WriterState
deriving DecidableEq

/-- `Writer::assert_state` (src/writer.rs lines 125-135). -/
def assert_state (w : WriterM) (expected : WriterState) (from_ : Str) :
    Except WError Unit :=
  if w.state ≠ expected ∧ w.state ≠ .Failed then
    .error (.BadState w.state from_)
  else .ok ()

/-- `Writer::ok_unless_failed` (src/writer.rs lines 137-143). -/
def ok_unless_failed (w : WriterM) : Except WError Unit :=
  if w.state = .Failed then .error .WriteToFailed else .ok ()

/-- `Writer::new` (src/writer.rs lines 113-123). -/
def writerNew (version : Str) (wok : Bool) : Except WError WriterM :=
  let output := LHEF_TAG_OPEN ++ ['"'] ++ version ++ strOf "\">\n"
  if wok then .ok ⟨output, .ExpectingHeaderOrInit⟩ else .error .Io

/-- The comment-header block `Writer::header` emits (src/writer.rs lines
160-165). -/
def headerBlock (header : Str) : Str :=
  COMMENT_START ++ strOf "\n" ++ header ++ strOf "\n" ++ COMMENT_END ++ strOf "\n"

/-- `Writer::header` (src/writer.rs lines 155-173). -/
def writerHeader (w : WriterM) (header : Str) (wok : Bool) :
    WriterM × Except WError Unit :=
  match assert_state w .ExpectingHeaderOrInit (strOf "header") with
  | .error e => (w, .error e)
  | .ok _ =>
    if wok then ({ w with out := w.out ++ headerBlock header }, ok_unless_failed w)
    else ({ w with state := .Failed }, .error .Io)

/-- The ` key="value"` attribute rendering used by `xml_to_string` and the
`"header"`-named branch of `xml_header` (leading space before each pair). -/
def attrsToStr (attrs : List (Str × Str)) : Str :=
  attrs.foldl (fun acc p => acc ++ [' '] ++ p.1 ++ strOf "=\"" ++ p.2 ++ ['"']) []

mutual
/-- `xml_to_string` (src/writer.rs lines 562-577). -/
def xmlToString : XmlTree → Str → Str
  | .node name attrs children text, output =>
    let out := output ++ ['<'] ++ name ++ attrsToStr attrs ++ ['>']
    let out := match text with
      | some t => out ++ t
      | none => out
    let out := xmlForestToString children out
    out ++ strOf "</" ++ name ++ ['>']

/-- The `for child in children` loop inside `xml_to_string`. -/
def xmlForestToString : XmlForest → Str → Str
  | .nil, output => output
  | .cons c cs, output => xmlForestToString cs (xmlToString c output)
end

/-- The block `Writer::xml_header` emits (src/writer.rs lines 205-248). -/
def xmlHeaderBlock (header : XmlTree) : Str :=
  match header with
  | .node name attrs children text =>
    let output := HEADER_START
    if name ≠ strOf "header" then
      let output := output ++ strOf ">\n"
      let output := xmlToString header output
      output ++ strOf "\n" ++ HEADER_END ++ strOf "\n"
    else
      let output := output ++ attrsToStr attrs
      let output := output ++ ['>']
      let output :=
        if ¬ children.isEmpty then output ++ strOf "\n" ++ xmlForestToString children []
        else output
      let output :=
        match text with
        | none => output ++ strOf "\n"
        | some t =>
          let output :=
            if children.isEmpty ∧ ¬ startsWith t (strOf "\n") then output ++ strOf "\n"
            else output
          let output := output ++ t
          if ¬ endsWithChar t '\n' then output ++ strOf "\n" else output
      output ++ HEADER_END ++ strOf "\n"

/-- `Writer::xml_header` (src/writer.rs lines 205-248). -/
def writerXmlHeader (w : WriterM) (header : XmlTree) (wok : Bool) :
    WriterM × Except WError Unit :=
  match assert_state w .ExpectingHeaderOrInit (strOf "xml header") with
  | .error e => (w, .error e)
  | .ok _ =>
    if wok then ({ w with out := w.out ++ xmlHeaderBlock header }, ok_unless_failed w)
    else ({ w with state := .Failed }, .error .Io)

/-- The `key="value"` attribute rendering of `Writer::heprup`
(src/writer.rs lines 289-291) — note: no leading space before the pair. -/
def initAttrsToStr (attrs : XmlAttr) : Str :=
  attrs.foldl (fun acc p => acc ++ p.1 ++ strOf "=\"" ++ p.2 ++ ['"']) []

/-- The subprocess lines of the init block: the `izip!` loop of
`Writer::heprup` (src/writer.rs lines 307-315), one
`xs xserr xsmax id` line per subprocess, stopping at the shortest list. -/
def subprocessLines : List F64 → List F64 → List F64 → List Int → Str
  | x :: xs, e :: es, m :: ms, l :: ls =>
      fmtF64 x ++ [' '] ++ fmtF64 e ++ [' '] ++ fmtF64 m ++ [' '] ++
        intToStr l ++ strOf "\n" ++ subprocessLines xs es ms ls
  | _, _, _, _ => []

/-- The trailing free-text info of a block (src/writer.rs lines 316-321 and
424-429): appended verbatim if nonempty, with a newline added when it does
not already end in one. -/
def infoText (info : Str) : Str :=
  if info ≠ [] then
    info ++ (if ¬ endsWithChar info '\n' then strOf "\n" else [])
  else []

/-- The scalar record line of the init block (src/writer.rs lines 293-306):
ten space-terminated tokens, the last written with `writeln!`. -/
def initRecordLine (r : HEPRUP) : Str :=
  intToStr r.IDBMUP.1 ++ [' '] ++ intToStr r.IDBMUP.2 ++ [' '] ++
  fmtF64 r.EBMUP.1 ++ [' '] ++ fmtF64 r.EBMUP.2 ++ [' '] ++
  intToStr r.PDFGUP.1 ++ [' '] ++ intToStr r.PDFGUP.2 ++ [' '] ++
  intToStr r.PDFSUP.1 ++ [' '] ++ intToStr r.PDFSUP.2 ++ [' '] ++
  intToStr r.IDWTUP ++ [' '] ++ intToStr r.NPRUP ++ strOf "\n"

/-- The init block `Writer::heprup` emits (src/writer.rs lines 288-323). -/
def initBlock (r : HEPRUP) : Str :=
  INIT_START ++ initAttrsToStr r.attr ++ strOf ">\n" ++
  initRecordLine r ++
  subprocessLines r.XSECUP r.XERRUP r.XMAXUP r.LPRUP ++
  infoText r.info ++
  INIT_END ++ strOf "\n"

/-- `Writer::heprup` (src/writer.rs lines 275-332). -/
def writerHeprup (w : WriterM) (runinfo : HEPRUP) (wok : Bool) :
    WriterM × Except WError Unit :=
  match assert_state w .ExpectingHeaderOrInit (strOf "init") with
  | .error e => (w, .error e)
  | .ok _ =>
    let num_sub := castUsize runinfo.NPRUP
    if num_sub ≠ runinfo.XSECUP.length ∨ num_sub ≠ runinfo.XERRUP.length ∨
        num_sub ≠ runinfo.XMAXUP.length ∨ num_sub ≠ runinfo.LPRUP.length then
      (w, .error .MismatchedSubprocesses)
    else if ¬ wok then ({ w with state := .Failed }, .error .Io)
    else
      let w1 : WriterM := { w with out := w.out ++ initBlock runinfo }
      let w2 := if w1.state ≠ .Failed then
          { w1 with state := .ExpectingEventOrFinish } else w1
      (w2, ok_unless_failed w2)

/-- The particle lines of an event block: the `izip!` loop of
`Writer::hepeup` (src/writer.rs lines 400-423), thirteen tokens per
particle, stopping at the shortest list. -/
def particleLines : List Int → List Int → List (Int × Int) →
    List (Int × Int) → List (F64 × F64 × F64 × F64 × F64) →
    List F64 → List F64 → Str
  | id :: ids, st :: sts, m :: ms, c :: cs, p :: ps, v :: vs, sp :: sps =>
      intToStr id ++ [' '] ++ intToStr st ++ [' '] ++
      intToStr m.1 ++ [' '] ++ intToStr m.2 ++ [' '] ++
      intToStr c.1 ++ [' '] ++ intToStr c.2 ++ [' '] ++
      fmtF64 p.1 ++ [' '] ++ fmtF64 p.2.1 ++ [' '] ++ fmtF64 p.2.2.1 ++ [' '] ++
      fmtF64 p.2.2.2.1 ++ [' '] ++ fmtF64 p.2.2.2.2 ++ [' '] ++
      fmtF64 v ++ [' '] ++ fmtF64 sp ++ strOf "\n" ++
      particleLines ids sts ms cs ps vs sps
  | _, _, _, _, _, _, _ => []

/-- The scalar record line of an event block (src/writer.rs lines
390-399). -/
def eventRecordLine (e : HEPEUP) : Str :=
  intToStr e.NUP ++ [' '] ++ intToStr e.IDRUP ++ [' '] ++
  fmtF64 e.XWGTUP ++ [' '] ++ fmtF64 e.SCALUP ++ [' '] ++
  fmtF64 e.AQEDUP ++ [' '] ++ fmtF64 e.AQCDUP ++ strOf "\n"

/-- The event block `Writer::hepeup` emits (src/writer.rs lines 385-431) —
here the attribute pairs do carry a leading space. -/
def eventBlock (e : HEPEUP) : Str :=
  EVENT_START ++ attrsToStr e.attr ++ strOf ">\n" ++
  eventRecordLine e ++
  particleLines e.IDUP e.ISTUP e.MOTHUP e.ICOLUP e.PUP e.VTIMUP e.SPINUP ++
  infoText e.info ++
  EVENT_END ++ strOf "\n"

/-- `Writer::hepeup` (src/writer.rs lines 368-439). -/
def writerHepeup (w : WriterM) (event : HEPEUP) (wok : Bool) :
    WriterM × Except WError Unit :=
  match assert_state w .ExpectingEventOrFinish (strOf "event") with
  | .error e => (w, .error e)
  | .ok _ =>
    let num_particles := castUsize event.NUP
    if num_particles ≠ event.IDUP.length ∨ num_particles ≠ event.ISTUP.length ∨
        num_particles ≠ event.MOTHUP.length ∨ num_particles ≠ event.ICOLUP.length ∨
        num_particles ≠ event.PUP.length ∨ num_particles ≠ event.VTIMUP.length ∨
        num_particles ≠ event.SPINUP.length then
      (w, .error .MismatchedParticles)
    else if wok then
      ({ w with out := w.out ++ eventBlock event }, ok_unless_failed w)
    else ({ w with state := .Failed }, .error .Io)

/-- `Writer::finish` (src/writer.rs lines 453-464). -/
def writerFinish (w : WriterM) (wok : Bool) : WriterM × Except WError Unit :=
  match assert_state w .ExpectingEventOrFinish (strOf "finish") with
  | .error e => (w, .error e)
  | .ok _ =>
    if ¬ wok then ({ w with state := .Failed }, .error .Io)
    else
      let w1 : WriterM := { w with out := w.out ++ LHEF_LAST_LINE ++ strOf "\n" }
      let w2 := if w1.state ≠ .Failed then { w1 with state := .Finished } else w1
      (w2, ok_unless_failed w2)

/-- `impl Drop for Writer` (src/writer.rs lines 467-473): on destruction,
attempt `finish()` exactly when the state is `ExpectingEventOrFinish`,
discarding the result. -/
def writerDrop (w : WriterM) (wok : Bool) : WriterM :=
  if w.state = .ExpectingEventOrFinish then (writerFinish w wok).1 else w

/-! ## Harness: whole writer sessions and repeated reads -/

/-- Keep the writer when a call succeeded, surface its error otherwise. -/
def stepW : WriterM × Except WError Unit → Except WError WriterM
  | (w, .ok _) => .ok w
  | (_, .error e) => .error e

/-- Write a list of events in order (all underlying writes succeeding). -/
def writeEvents (w : WriterM) : List HEPEUP → WriterM × Except WError Unit
  | [] => (w, .ok ())
  | e :: es =>
    match writerHepeup w e true with
    | (w', .ok _) => writeEvents w' es
    | (w', .error err) => (w', .error err)

/-- A complete successful writer session with all underlying writes
succeeding: `new`, optionally `header`, then `heprup`, the events, and
`finish`; the result is the byte stream produced. -/
def writeSession (v : Str) (h : Option Str) (r : HEPRUP) (es : List HEPEUP) :
    Except WError Str := do
  let w ← writerNew v true
  let w ← match h with
    | none => pure w
    | some hh => stepW (writerHeader w hh true)
  let w ← stepW (writerHeprup w r true)
  let w ← stepW (writeEvents w es)
  let w ← stepW (writerFinish w true)
  pure w.out

/-- Call `Reader::hepeup` repeatedly (at most `fuel` times), collecting
events until the end-of-stream signal. -/
def readEvents : Nat → List Str → Except ParseError (List HEPEUP) × List Str
  | 0, s => (.error (.EndOfFile (strOf "event")), s)
  | fuel + 1, s =>
    match readerHepeup s with
    | (.ok none, s') => (.ok [], s')
    | (.ok (some e), s') =>
      match readEvents fuel s' with
      | (.ok es, s'') => (.ok (e :: es), s'')
      | (.error err, s'') => (.error err, s'')
    | (.error err, s') => (.error err, s')

/-! ## Sample data for concrete checks -/

/-- A small valid run-information record (from the writer test / doc
examples, floats replaced by their modelled bit patterns). -/
def sampleHeprup : HEPRUP :=
  ⟨(2212, 2212), (7000, 7000), (0, 0), (230000, 230000), 2, 1,
    [120588124], [702517], [94290], [7], [], []⟩

/-- A small valid event record. -/
def sampleHepeup : HEPEUP :=
  ⟨2, 1, 84515, 91, 7, 119, [1, 21], [-1, 1], [(0, 0), (1, 2)],
    [(503, 0), (501, 502)], [(1, 2, 3, 4, 5), (6, 7, 8, 9, 10)],
    [0, 0], [1, 2], [], []⟩

/-- A small xml header tree. -/
def sampleXml : XmlTree := .node (strOf "header") [] .nil (some (strOf "hi"))

/-- A run-information record whose declared subprocess count does not match
its sequences. -/
def badHeprup : HEPRUP := { sampleHeprup with NPRUP := 2 }

/-- An event whose declared particle count does not match its sequences. -/
def badHepeup : HEPEUP := { sampleHepeup with NUP := 3 }

/-- A five-line stream whose init block declares `NPRUP = 1` and carries
one subprocess line. -/
def c9Stream : List Str :=
  [strOf "<LesHouchesEvents version=\"1.0\">\n", strOf "<init>\n",
    strOf "1 1 1 1 1 1 1 1 1 1\n", strOf "1 1 1 1\n", strOf "</init>\n"]

/-- The run information `Reader::new` produces from `c9Stream`: declared
count `1`, all four sequences of length `1`. -/
def c9Heprup : HEPRUP :=
  ⟨(1, 1), (1, 1), (1, 1), (1, 1), 1, 1, [1], [1], [1], [1], [], []⟩

/-- The full reader value produced from `c9Stream`. -/
def c9Reader : ReaderM := ⟨strOf "1.0", [], none, c9Heprup⟩

/-- A single-event stream with `NUP = 1`. -/
def c9EventStream : List Str :=
  [strOf "<event>\n", strOf "1 1 1 1 1 1\n",
    strOf "1 1 1 1 1 1 1 1 1 1 1 1 1\n", strOf "</event>\n"]

/-- The event `Reader::hepeup` produces from `c9EventStream`. -/
def c9Event : HEPEUP :=
  ⟨1, 1, 1, 1, 1, 1, [1], [1], [(1, 1)], [(1, 1)], [(1, 1, 1, 1, 1)],
    [1], [1], [], []⟩

/-! ## Predicates used in the correctness statements -/

/-- The string ends in a newline. -/
def endsNl (s : Str) : Prop := s.getLast? = some '\n'

instance (s : Str) : Decidable (endsNl s) := by unfold endsNl; infer_instance

/-- A well-formed stream line: some newline-free content followed by one
newline. -/
def wfLine (l : Str) : Prop := ∃ m, l = m ++ ['\n'] ∧ '\n' ∉ m

/-- A well-formed whitespace-split token: nonempty and whitespace-free. -/
def noWsTok (t : Str) : Prop := t ≠ [] ∧ ∀ c ∈ t, isWs c = false

/-! ## Basic list and string lemmas -/

lemma dropWhile_head_false {p : Char → Bool} :
    ∀ {s : Str} {c : Char} {rest : Str},
      List.dropWhile p s = c :: rest → p c = false := by
  intro s
  induction s with
  | nil => intro c rest h; simp at h
  | cons x xs ih =>
    intro c rest h
    rw [List.dropWhile_cons] at h
    by_cases hx : p x = true
    · exact ih (by simpa [hx] using h)
    · simp only [hx, if_neg] at h
      obtain ⟨rfl, -⟩ : x = c ∧ xs = rest := by
        simpa using h
      simpa using hx

lemma length_dropWhile_le (p : Char → Bool) :
    ∀ s : Str, (s.dropWhile p).length ≤ s.length := by
  intro s
  induction s with
  | nil => simp
  | cons x xs ih =>
    rw [List.dropWhile_cons]
    by_cases hx : p x = true
    · simp only [hx, if_pos]
      exact le_trans ih (by simp)
    · simp [hx]

lemma dropWhile_append_all {p : Char → Bool} :
    ∀ (t rest : Str), (∀ c ∈ t, p c = true) →
      (t ++ rest).dropWhile p = rest.dropWhile p := by
  intro t
  induction t with
  | nil => intro rest _; simp
  | cons x xs ih =>
    intro rest h
    have hx : p x = true := h x (by simp)
    simp only [List.cons_append, List.dropWhile_cons, hx, if_pos]
    exact ih rest (fun c hc => h c (by simp [hc]))

lemma dropWhile_head_stop {p : Char → Bool} (rest : Str)
    (h : ∀ c, rest.head? = some c → p c = false) :
    rest.dropWhile p = rest := by
  cases rest with
  | nil => simp
  | cons c cs =>
    have := h c (by simp)
    simp [List.dropWhile_cons, this]

lemma dropWhile_tok {p : Char → Bool} (t rest : Str)
    (ht : ∀ c ∈ t, p c = true)
    (hr : ∀ c, rest.head? = some c → p c = false) :
    (t ++ rest).dropWhile p = rest := by
  rw [dropWhile_append_all t rest ht, dropWhile_head_stop rest hr]

lemma takeWhile_tok {p : Char → Bool} :
    ∀ (t rest : Str), (∀ c ∈ t, p c = true) →
      (∀ c, rest.head? = some c → p c = false) →
      (t ++ rest).takeWhile p = t := by
  intro t
  induction t with
  | nil =>
    intro rest _ hr
    cases rest with
    | nil => simp
    | cons c cs => have := hr c (by simp); simp [List.takeWhile_cons, this]
  | cons x xs ih =>
    intro rest h hr
    have hx : p x = true := h x (by simp)
    simp only [List.cons_append, List.takeWhile_cons, hx, if_pos]
    rw [ih rest (fun c hc => h c (by simp [hc])) hr]

lemma endsNl_iff (s : Str) : endsNl s ↔ ∃ q, s = q ++ ['\n'] := by
  constructor
  · intro h
    induction s with
    | nil => simp [endsNl] at h
    | cons c t ih =>
      cases t with
      | nil =>
        obtain rfl : c = '\n' := by simpa [endsNl] using h
        exact ⟨[], rfl⟩
      | cons d t' =>
        have h' : endsNl (d :: t') := by
          simpa [endsNl, List.getLast?_cons_cons] using h
        obtain ⟨q, hq⟩ := ih h'
        exact ⟨c :: q, by simp [hq]⟩
  · rintro ⟨q, rfl⟩
    exact List.getLast?_concat q

lemma endsNl_append (a b : Str) (h : endsNl b) : endsNl (a ++ b) := by
  unfold endsNl at h ⊢
  rw [List.getLast?_append, h]
  rfl

lemma wfLine_endsNl {l : Str} (h : wfLine l) : endsNl l := by
  obtain ⟨m, rfl, -⟩ := h
  exact (endsNl_iff _).2 ⟨m, rfl⟩

lemma wfLine_ne_nil {l : Str} (h : wfLine l) : l ≠ [] := by
  obtain ⟨m, rfl, -⟩ := h
  simp

/-! ## splitOnChar and lastLine lemmas -/

lemma splitAux_all_not (sep : Char) :
    ∀ (s acc : Str), sep ∉ s →
      splitOnCharAux sep s acc = [acc.reverse ++ s] := by
  intro s
  induction s with
  | nil => intro acc _; simp [splitOnCharAux]
  | cons c t ih =>
    intro acc h
    have hc : ¬ c = sep := by rintro rfl; exact h (by simp)
    rw [splitOnCharAux, if_neg hc, ih (c :: acc) (fun hm => h (by simp [hm]))]
    simp

lemma splitAux_mid (sep : Char) :
    ∀ (a : Str) (b acc : Str), sep ∉ a →
      splitOnCharAux sep (a ++ sep :: b) acc =
        (acc.reverse ++ a) :: splitOnCharAux sep b [] := by
  intro a
  induction a with
  | nil => intro b acc _; simp [splitOnCharAux]
  | cons c t ih =>
    intro b acc h
    have hc : ¬ c = sep := by rintro rfl; exact h (by simp)
    rw [List.cons_append, splitOnCharAux, if_neg hc,
      ih b (c :: acc) (fun hm => h (by simp [hm]))]
    simp

lemma splitAux_suffix (sep : Char) (t : Str) :
    ∀ (s acc : Str), ∃ X : List Str,
      splitOnCharAux sep (s ++ sep :: t) acc =
        X ++ splitOnCharAux sep t [] := by
  intro s
  induction s with
  | nil =>
    intro acc
    exact ⟨[acc.reverse], by simp [splitOnCharAux]⟩
  | cons c u ih =>
    intro acc
    by_cases hc : c = sep
    · subst hc
      obtain ⟨X, hX⟩ := ih []
      exact ⟨acc.reverse :: X, by simp [splitOnCharAux, hX]⟩
    · obtain ⟨X, hX⟩ := ih (c :: acc)
      exact ⟨X, by simp [splitOnCharAux, hc, hX]⟩

lemma lastLine_closed (pre m : Str) (hm : '\n' ∉ m)
    (hpre : pre = [] ∨ endsNl pre) :
    lastLine (pre ++ (m ++ ['\n'])) = m := by
  have hmid : splitOnCharAux '\n' (m ++ '\n' :: []) [] = [m, []] := by
    rw [splitAux_mid '\n' m [] [] hm]; simp [splitOnCharAux]
  rcases hpre with rfl | hpre
  · unfold lastLine linesOf splitOnChar
    simp only [List.nil_append]
    have : m ++ ['\n'] = m ++ '\n' :: [] := rfl
    rw [this, hmid]
    simp
  · obtain ⟨q, rfl⟩ := (endsNl_iff pre).1 hpre
    unfold lastLine linesOf splitOnChar
    have hsh : q ++ ['\n'] ++ (m ++ ['\n']) = q ++ '\n' :: (m ++ '\n' :: []) := by
      simp
    rw [hsh]
    obtain ⟨X, hX⟩ := splitAux_suffix '\n' (m ++ '\n' :: []) q []
    rw [hX, hmid]
    have h1 : (X ++ [m, []]).getLast? = some [] := by
      rw [List.getLast?_append]; rfl
    have h2 : (X ++ [m, []]).dropLast = X ++ [m] := by
      have : X ++ [m, []] = (X ++ [m]) ++ [[]] := by simp
      rw [this, List.dropLast_concat]
    rw [if_pos h1, h2, List.getLast?_append]
    rfl

lemma popLine_closed (pre m : Str) (hm : '\n' ∉ m)
    (hpre : pre = [] ∨ endsNl pre) :
    popLine (pre ++ (m ++ ['\n'])) = pre := by
  unfold popLine
  have h1 : (pre ++ (m ++ ['\n'])).reverse = '\n' :: (m.reverse ++ pre.reverse) := by
    simp
  rw [h1]
  simp only [List.drop_succ_cons, List.drop_zero]
  have h2 : ∀ c ∈ m.reverse, (!(c == '\n')) = true := by
    intro c hc
    have : c ∈ m := by simpa using hc
    have : ¬ c = '\n' := fun h => hm (h ▸ this)
    simpa using this
  rw [dropWhile_append_all _ _ h2]
  rcases hpre with rfl | hpre
  · simp
  · obtain ⟨q, rfl⟩ := (endsNl_iff pre).1 hpre
    have h3 : (q ++ ['\n']).reverse = '\n' :: q.reverse := by simp
    rw [h3, List.dropWhile_cons]
    simp

/-! ## toLines lemmas -/

lemma toLines_cons_nl (s : Str) : toLines ('\n' :: s) = ['\n'] :: toLines s := by
  rw [toLines, if_pos rfl]

lemma toLines_cons_other_nil {c : Char} {s : Str} (hc : c ≠ '\n')
    (h : toLines s = []) : toLines (c :: s) = [[c]] := by
  rw [toLines, if_neg hc, h]

lemma toLines_cons_other_cons {c : Char} {s l : Str} {ls : List Str}
    (hc : c ≠ '\n') (h : toLines s = l :: ls) :
    toLines (c :: s) = (c :: l) :: ls := by
  rw [toLines, if_neg hc, h]

lemma toLines_ne_nil : ∀ {s : Str}, s ≠ [] → toLines s ≠ [] := by
  intro s h
  cases s with
  | nil => exact absurd rfl h
  | cons c t =>
    by_cases hc : c = '\n'
    · subst hc; rw [toLines_cons_nl]; simp
    · cases ht : toLines t with
      | nil => rw [toLines_cons_other_nil hc ht]; simp
      | cons l ls => rw [toLines_cons_other_cons hc ht]; simp

lemma toLines_line : ∀ (m : Str), '\n' ∉ m →
    toLines (m ++ ['\n']) = [m ++ ['\n']] := by
  intro m
  induction m with
  | nil => intro _; rfl
  | cons c t ih =>
    intro h
    have hc : c ≠ '\n' := fun hc => h (by simp [hc])
    have ht := ih (fun hm => h (by simp [hm]))
    rw [List.cons_append, toLines_cons_other_cons hc ht]

lemma toLines_append : ∀ (a b : Str), endsNl a →
    toLines (a ++ b) = toLines a ++ toLines b := by
  intro a
  induction a with
  | nil => intro b h; simp [endsNl] at h
  | cons c t ih =>
    intro b h
    cases t with
    | nil =>
      obtain rfl : c = '\n' := by simpa [endsNl] using h
      rw [List.cons_append, List.nil_append, toLines_cons_nl, toLines_cons_nl]
      rfl
    | cons d t' =>
      have h' : endsNl (d :: t') := by
        simpa [endsNl, List.getLast?_cons_cons] using h
      by_cases hc : c = '\n'
      · subst hc
        rw [List.cons_append, toLines_cons_nl, ih b h', toLines_cons_nl]
        rfl
      · have hne : toLines (d :: t') ≠ [] := toLines_ne_nil (by simp)
        cases hl : toLines (d :: t') with
        | nil => exact absurd hl hne
        | cons l ls =>
          have happ : toLines (d :: t' ++ b) = (l :: ls) ++ toLines b := by
            rw [ih b h', hl]
          rw [List.cons_append,
            toLines_cons_other_cons hc (by simpa using happ),
            toLines_cons_other_cons hc hl]
          rfl

lemma toLines_flatten : ∀ (s : Str), (toLines s).flatten = s := by
  intro s
  induction s with
  | nil => rfl
  | cons c t ih =>
    by_cases hc : c = '\n'
    · subst hc
      rw [toLines_cons_nl, List.flatten_cons, ih]
      rfl
    · cases ht : toLines t with
      | nil =>
        have hknil : t = [] := by
          by_contra hne
          exact toLines_ne_nil hne ht
        subst hknil
        rw [toLines_cons_other_nil hc (show toLines [] = [] from rfl)]
        rfl
      | cons l ls =>
        have hflat : l ++ ls.flatten = t := by
          rw [← List.flatten_cons, ← ht, ih]
        rw [toLines_cons_other_cons hc ht, List.flatten_cons]
        simp [List.cons_append, hflat]

lemma toLines_wf : ∀ (s : Str), endsNl s → ∀ l ∈ toLines s, wfLine l := by
  intro s
  induction s with
  | nil => intro h; simp [endsNl] at h
  | cons c t ih =>
    intro h l hl
    cases t with
    | nil =>
      obtain rfl : c = '\n' := by simpa [endsNl] using h
      have hl' : l = ['\n'] := by
        have heq : toLines ['\n'] = [['\n']] := rfl
        rw [heq] at hl
        simpa using hl
      exact ⟨[], by simp [hl'], by simp⟩
    | cons d t' =>
      have h' : endsNl (d :: t') := by
        simpa [endsNl, List.getLast?_cons_cons] using h
      by_cases hc : c = '\n'
      · subst hc
        rw [toLines_cons_nl] at hl
        rcases List.mem_cons.1 hl with hl1 | hl1
        · exact ⟨[], by simp [hl1], by simp⟩
        · exact ih h' l hl1
      · have hne : toLines (d :: t') ≠ [] := toLines_ne_nil (by simp)
        cases hlines : toLines (d :: t') with
        | nil => exact absurd hlines hne
        | cons l0 ls =>
          rw [toLines_cons_other_cons hc hlines] at hl
          rcases List.mem_cons.1 hl with hl1 | hl1
          · have hw : wfLine l0 := ih h' l0 (by simp [hlines])
            obtain ⟨m, hm0, hm⟩ := hw
            refine ⟨c :: m, by simp [hl1, hm0], ?_⟩
            intro hmem
            rcases List.mem_cons.1 hmem with hmem1 | hmem1
            · exact hc hmem1.symm
            · exact hm hmem1
          · exact ih h' l (by simp [hlines, hl1])

/-! ## splitWhitespace lemmas -/

lemma splitWsAux_succ (f : Nat) (s : Str) :
    splitWsAux (f + 1) s =
      match s.dropWhile isWs with
      | [] => []
      | c :: rest =>
          ((c :: rest).takeWhile (fun x => !isWs x)) ::
            splitWsAux f ((c :: rest).dropWhile (fun x => !isWs x)) := rfl

lemma splitWsAux_succ_nil (f : Nat) (s : Str) (h : s.dropWhile isWs = []) :
    splitWsAux (f + 1) s = [] := by
  rw [splitWsAux_succ, h]

lemma splitWsAux_succ_cons (f : Nat) (s : Str) (c : Char) (rest : Str)
    (h : s.dropWhile isWs = c :: rest) :
    splitWsAux (f + 1) s =
      ((c :: rest).takeWhile (fun x => !isWs x)) ::
        splitWsAux f ((c :: rest).dropWhile (fun x => !isWs x)) := by
  rw [splitWsAux_succ, h]

lemma dropWs_shrink {s : Str} {c : Char} {rest : Str}
    (hd : s.dropWhile isWs = c :: rest) :
    (List.dropWhile (fun x => !isWs x) (c :: rest)).length < s.length := by
  have h1 : isWs c = false := dropWhile_head_false hd
  have h2 : List.dropWhile (fun x => !isWs x) (c :: rest) =
      List.dropWhile (fun x => !isWs x) rest := by
    simp [List.dropWhile_cons, h1]
  have h3 : (List.dropWhile (fun x => !isWs x) rest).length ≤ rest.length :=
    length_dropWhile_le _ _
  have h4 : (c :: rest).length ≤ s.length := by
    rw [← hd]; exact length_dropWhile_le _ _
  simp only [List.length_cons] at h4
  rw [h2]
  omega

lemma splitWsAux_fuel : ∀ (f1 f2 : Nat) (s : Str),
    s.length < f1 → s.length < f2 → splitWsAux f1 s = splitWsAux f2 s := by
  intro f1
  induction f1 with
  | zero => intro f2 s h1 _; exact absurd h1 (Nat.not_lt_zero _)
  | succ f ih =>
    intro f2 s h1 h2
    cases f2 with
    | zero => exact absurd h2 (Nat.not_lt_zero _)
    | succ g =>
      cases hd : s.dropWhile isWs with
      | nil => rw [splitWsAux_succ_nil f s hd, splitWsAux_succ_nil g s hd]
      | cons c rest =>
        rw [splitWsAux_succ_cons f s c rest hd,
          splitWsAux_succ_cons g s c rest hd]
        have hs := dropWs_shrink hd
        rw [ih g ((c :: rest).dropWhile (fun x => !isWs x))
          (by omega) (by omega)]

lemma splitWsAux_adequate {f : Nat} {s : Str} (h : s.length < f) :
    splitWsAux f s = splitWhitespace s :=
  splitWsAux_fuel f (s.length + 1) s h (by omega)

lemma sw_nil : splitWhitespace [] = [] := rfl

lemma sw_ws {c : Char} (s : Str) (h : isWs c = true) :
    splitWhitespace (c :: s) = splitWhitespace s := by
  have hd : (c :: s).dropWhile isWs = s.dropWhile isWs := by
    simp [List.dropWhile_cons, h]
  show splitWsAux ((c :: s).length + 1) (c :: s) = splitWsAux (s.length + 1) s
  cases hds : s.dropWhile isWs with
  | nil =>
    rw [splitWsAux_succ_nil _ _ (hd.trans hds),
      splitWsAux_succ_nil _ _ hds]
  | cons c' rest =>
    rw [splitWsAux_succ_cons ((c :: s).length) _ c' rest (hd.trans hds),
      splitWsAux_succ_cons (s.length) _ c' rest hds]
    have hs := dropWs_shrink hds
    rw [splitWsAux_fuel ((c :: s).length) (s.length)
      ((c' :: rest).dropWhile (fun x => !isWs x)) (by simp; omega) (by omega)]

lemma sw_tok (t rest : Str) (ht : noWsTok t)
    (hr : ∀ c, rest.head? = some c → isWs c = true) :
    splitWhitespace (t ++ rest) = t :: splitWhitespace rest := by
  obtain ⟨hne, hchars⟩ := ht
  obtain ⟨c, t', rfl⟩ : ∃ c t', t = c :: t' := by
    cases t with
    | nil => exact absurd rfl hne
    | cons c t' => exact ⟨c, t', rfl⟩
  have hc : isWs c = false := hchars c (by simp)
  have hd : (c :: t' ++ rest).dropWhile isWs = c :: (t' ++ rest) := by
    simp [List.dropWhile_cons, hc]
  show splitWsAux ((c :: t' ++ rest).length + 1) (c :: t' ++ rest) = _
  rw [splitWsAux_succ_cons _ _ c (t' ++ rest) hd]
  have htk : (c :: (t' ++ rest)).takeWhile (fun x => !isWs x) = c :: t' := by
    have hh := takeWhile_tok (p := fun x => !isWs x) (c :: t') rest
      (fun x hx => by simp [hchars x hx])
      (fun x hx => by simp [hr x hx])
    simpa using hh
  have hdr : (c :: (t' ++ rest)).dropWhile (fun x => !isWs x) = rest := by
    have hh := dropWhile_tok (p := fun x => !isWs x) (c :: t') rest
      (fun x hx => by simp [hchars x hx])
      (fun x hx => by simp [hr x hx])
    simpa using hh
  rw [htk, hdr]
  have hlen : rest.length < (c :: t' ++ rest).length := by
    simp only [List.length_cons, List.length_append]
    omega
  rw [splitWsAux_adequate hlen]

lemma sw_space_chain (t rest : Str) (ht : noWsTok t) :
    splitWhitespace (t ++ ' ' :: rest) = t :: splitWhitespace rest := by
  rw [sw_tok t (' ' :: rest) ht
    (by intro c hc; simp at hc; subst hc; rfl)]
  rw [sw_ws rest (by rfl)]

lemma sw_end_line (t : Str) (ht : noWsTok t) :
    splitWhitespace (t ++ ['\n']) = [t] := by
  rw [sw_tok t ['\n'] ht (by intro c hc; simp at hc; subst hc; rfl)]
  rw [sw_ws [] (by rfl), sw_nil]

/-! ## Numeric codec lemmas -/

lemma digitChar_isDigit {n : Nat} (h : n < 10) :
    (Nat.digitChar n).isDigit = true := by
  interval_cases n <;> decide

lemma digitVal_digitChar {n : Nat} (h : n < 10) :
    digitVal (Nat.digitChar n) = n := by
  interval_cases n <;> decide

lemma natToStrAux_wf : ∀ (fuel n : Nat), n < fuel →
    natToStrAux fuel n ≠ [] ∧ ∀ c ∈ natToStrAux fuel n, c.isDigit = true := by
  intro fuel
  induction fuel with
  | zero => intro n h; exact absurd h (Nat.not_lt_zero _)
  | succ f ih =>
    intro n h
    rw [natToStrAux]
    by_cases h10 : n < 10
    · rw [if_pos h10]
      refine ⟨by simp, ?_⟩
      intro c hc
      obtain rfl : c = Nat.digitChar n := by simpa using hc
      exact digitChar_isDigit h10
    · rw [if_neg h10]
      have hdiv : n / 10 < n := Nat.div_lt_self (by omega) (by omega)
      obtain ⟨h1, h2⟩ := ih (n / 10) (by omega)
      refine ⟨by simp [h1], ?_⟩
      intro c hc
      rcases List.mem_append.1 hc with hc1 | hc1
      · exact h2 c hc1
      · obtain rfl : c = Nat.digitChar (n % 10) := by simpa using hc1
        exact digitChar_isDigit (Nat.mod_lt _ (by omega))

lemma natToStrAux_val : ∀ (fuel n : Nat), n < fuel →
    (natToStrAux fuel n).foldl (fun acc c => 10 * acc + digitVal c) 0 = n := by
  intro fuel
  induction fuel with
  | zero => intro n h; exact absurd h (Nat.not_lt_zero _)
  | succ f ih =>
    intro n h
    rw [natToStrAux]
    by_cases h10 : n < 10
    · rw [if_pos h10]
      simp [digitVal_digitChar h10]
    · rw [if_neg h10]
      have hdiv : n / 10 < n := Nat.div_lt_self (by omega) (by omega)
      rw [List.foldl_append, ih (n / 10) (by omega)]
      simp [digitVal_digitChar (Nat.mod_lt n (show 0 < 10 by omega))]
      omega

lemma natToStr_wf (n : Nat) :
    natToStr n ≠ [] ∧ ∀ c ∈ natToStr n, c.isDigit = true :=
  natToStrAux_wf (n + 1) n (by omega)

lemma parseNat_natToStr (n : Nat) : parseNat (natToStr n) = some n := by
  obtain ⟨h1, h2⟩ := natToStr_wf n
  unfold parseNat
  rw [if_pos ⟨h1, List.all_eq_true.2 h2⟩]
  unfold natToStr
  rw [natToStrAux_val (n + 1) n (by omega)]

lemma isDigit_not_ws {c : Char} (h : c.isDigit = true) : isWs c = false := by
  cases hws : isWs c with
  | false => rfl
  | true =>
    exfalso
    unfold isWs at hws
    simp only [Bool.or_eq_true, beq_iff_eq] at hws
    rcases hws with ((rfl | rfl) | rfl) | rfl <;> exact absurd h (by decide)

lemma isDigit_not_sign {c : Char} (h : c.isDigit = true) :
    c ≠ '-' ∧ c ≠ '+' := by
  constructor <;> rintro rfl <;> exact absurd h (by decide)

lemma natToStr_noWsTok (n : Nat) : noWsTok (natToStr n) := by
  obtain ⟨h1, h2⟩ := natToStr_wf n
  exact ⟨h1, fun c hc => isDigit_not_ws (h2 c hc)⟩

lemma intToStr_noWsTok (i : Int) : noWsTok (intToStr i) := by
  unfold intToStr
  by_cases hi : i < 0
  · rw [if_pos hi]
    obtain ⟨h1, h2⟩ := natToStr_wf i.natAbs
    refine ⟨by simp, ?_⟩
    intro c hc
    rcases List.mem_cons.1 hc with rfl | hc1
    · rfl
    · exact isDigit_not_ws (h2 c hc1)
  · rw [if_neg hi]
    exact natToStr_noWsTok _

lemma parseInt_cons (c : Char) (rest : Str) :
    parseInt (c :: rest) =
      if c = '-' then (parseNat rest).map (fun n => -(n : Int))
      else if c = '+' then (parseNat rest).map (fun n => (n : Int))
      else (parseNat (c :: rest)).map (fun n => (n : Int)) := rfl

lemma parseInt_intToStr (i : Int) : parseInt (intToStr i) = some i := by
  by_cases hi : i < 0
  · unfold intToStr
    rw [if_pos hi, parseInt_cons, if_pos rfl, parseNat_natToStr]
    have : (↑i.natAbs : Int) = -i := Int.ofNat_natAbs_of_nonpos (le_of_lt hi)
    simp [this]
  · unfold intToStr
    rw [if_neg hi]
    obtain ⟨h1, h2⟩ := natToStr_wf i.toNat
    obtain ⟨c, cs, hcs⟩ : ∃ c cs, natToStr i.toNat = c :: cs := by
      cases hn : natToStr i.toNat with
      | nil => exact absurd hn h1
      | cons c cs => exact ⟨c, cs, rfl⟩
    have hd : c.isDigit = true := h2 c (by simp [hcs])
    obtain ⟨hm, hp⟩ := isDigit_not_sign hd
    rw [hcs, parseInt_cons, if_neg hm, if_neg hp, ← hcs, parseNat_natToStr]
    simp [Int.toNat_of_nonneg (by omega : (0:Int) ≤ i)]

lemma fmtF64_noWsTok (x : F64) : noWsTok (fmtF64 x) := natToStr_noWsTok x

lemma parseF64_fmtF64 (x : F64) : parseF64 (fmtF64 x) = some x :=
  parseNat_natToStr x

lemma parseEntry_some (name t : Str) :
    parseEntry name (some t) =
      match parseInt t with
      | some v => .ok v
      | none => .error (.ConversionError t) := rfl

lemma parseEntryF64_some (name t : Str) :
    parseEntryF64 name (some t) =
      match parseF64 t with
      | some v => .ok v
      | none => .error (.ConversionError t) := rfl

/-- Convenience: the two field parsers succeed on freshly formatted
tokens. -/
lemma parseEntry_int (name : Str) (i : Int) :
    parseEntry name (some (intToStr i)) = .ok i := by
  rw [parseEntry_some, parseInt_intToStr]

lemma parseEntryF64_fmt (name : Str) (x : F64) :
    parseEntryF64 name (some (fmtF64 x)) = .ok x := by
  rw [parseEntryF64_some, parseF64_fmtF64]

/-! ## Writer state-machine lemmas -/

lemma assert_state_fail (w : WriterM) (expected : WriterState) (op : Str)
    (h1 : w.state ≠ expected) (h2 : w.state ≠ .Failed) :
    assert_state w expected op = .error (.BadState w.state op) := by
  unfold assert_state
  rw [if_pos ⟨h1, h2⟩]

lemma assert_state_ok (w : WriterM) (expected : WriterState) (op : Str)
    (h : w.state = expected ∨ w.state = .Failed) :
    assert_state w expected op = .ok () := by
  unfold assert_state
  rw [if_neg]
  rcases h with h | h <;> simp [h]

lemma ok_unless_failed_failed (w : WriterM) (h : w.state = .Failed) :
    ok_unless_failed w = .error .WriteToFailed := by
  unfold ok_unless_failed
  rw [if_pos h]

lemma ok_unless_failed_ok (w : WriterM) (h : w.state ≠ .Failed) :
    ok_unless_failed w = .ok () := by
  unfold ok_unless_failed
  rw [if_neg h]

/-- C4: a write method called in a state where it is not legal (and not in
the sticky `Failed` state) fails with `BadState`, naming the attempted
operation and the current state, with the writer — output stream and state —
left completely unchanged.  The legal states are `ExpectingHeaderOrInit`
for `header`/`xml_header`/`heprup` and `ExpectingEventOrFinish` for
`hepeup`/`finish`. -/
theorem c4_bad_state_rejected (w : WriterM) (hd : Str) (xh : XmlTree)
    (r : HEPRUP) (e : HEPEUP) (wok : Bool) :
    (w.state ≠ .ExpectingHeaderOrInit → w.state ≠ .Failed →
      writerHeader w hd wok = (w, .error (.BadState w.state (strOf "header"))) ∧
      writerXmlHeader w xh wok =
        (w, .error (.BadState w.state (strOf "xml header"))) ∧
      writerHeprup w r wok = (w, .error (.BadState w.state (strOf "init")))) ∧
    (w.state ≠ .ExpectingEventOrFinish → w.state ≠ .Failed →
      writerHepeup w e wok = (w, .error (.BadState w.state (strOf "event"))) ∧
      writerFinish w wok = (w, .error (.BadState w.state (strOf "finish")))) := by
  constructor
  · intro h1 h2
    refine ⟨?_, ?_, ?_⟩
    · unfold writerHeader
      rw [assert_state_fail w _ _ h1 h2]
    · unfold writerXmlHeader
      rw [assert_state_fail w _ _ h1 h2]
    · unfold writerHeprup
      rw [assert_state_fail w _ _ h1 h2]
  · intro h1 h2
    refine ⟨?_, ?_⟩
    · unfold writerHepeup
      rw [assert_state_fail w _ _ h1 h2]
    · unfold writerFinish
      rw [assert_state_fail w _ _ h1 h2]

/-- C4 witness: concrete illegal calls (state `Finished`) for all five
methods. -/
theorem c4_bad_state_rejected_witness :
    writerHeader ⟨[], .Finished⟩ (strOf "x") true =
      (⟨[], .Finished⟩, .error (.BadState .Finished (strOf "header"))) ∧
    writerHepeup ⟨[], .Finished⟩ sampleHepeup true =
      (⟨[], .Finished⟩, .error (.BadState .Finished (strOf "event"))) := by
  have h := c4_bad_state_rejected ⟨[], .Finished⟩ (strOf "x") sampleXml
    sampleHeprup sampleHepeup true
  exact ⟨(h.1 (by decide) (by decide)).1, (h.2 (by decide) (by decide)).1⟩

lemma castUsize_ne_len {n : Int} {len : Nat}
    (hlo : -(2 ^ 31) ≤ n) (hhi : n < 2 ^ 31) (hlen : len < 2 ^ 63)
    (hne : (len : Int) ≠ n) : castUsize n ≠ len := by
  unfold castUsize
  omega

/-- C5: writing a `HEPRUP` whose `XSECUP`/`XERRUP`/`XMAXUP`/`LPRUP` length
differs from `NPRUP` fails with `MismatchedSubprocesses`, and writing a
`HEPEUP` with any of the seven per-particle sequences differing in length
from `NUP` fails with `MismatchedParticles`; in both cases no bytes are
written and the state is unchanged.  The bound hypotheses record that
`NPRUP`/`NUP` are `i32` values and that a Rust `Vec` is far shorter than
`2^63` elements (the length comparison in the source happens after an
`as usize` cast). -/
theorem c5_count_mismatch_rejected (w : WriterM) (r : HEPRUP) (e : HEPEUP)
    (wok : Bool) :
    ((w.state = .ExpectingHeaderOrInit ∨ w.state = .Failed) →
      -(2 ^ 31) ≤ r.NPRUP → r.NPRUP < 2 ^ 31 →
      r.XSECUP.length < 2 ^ 63 → r.XERRUP.length < 2 ^ 63 →
      r.XMAXUP.length < 2 ^ 63 → r.LPRUP.length < 2 ^ 63 →
      ((r.XSECUP.length : Int) ≠ r.NPRUP ∨ (r.XERRUP.length : Int) ≠ r.NPRUP ∨
        (r.XMAXUP.length : Int) ≠ r.NPRUP ∨ (r.LPRUP.length : Int) ≠ r.NPRUP) →
      writerHeprup w r wok = (w, .error .MismatchedSubprocesses)) ∧
    ((w.state = .ExpectingEventOrFinish ∨ w.state = .Failed) →
      -(2 ^ 31) ≤ e.NUP → e.NUP < 2 ^ 31 →
      e.IDUP.length < 2 ^ 63 → e.ISTUP.length < 2 ^ 63 →
      e.MOTHUP.length < 2 ^ 63 → e.ICOLUP.length < 2 ^ 63 →
      e.PUP.length < 2 ^ 63 → e.VTIMUP.length < 2 ^ 63 →
      e.SPINUP.length < 2 ^ 63 →
      ((e.IDUP.length : Int) ≠ e.NUP ∨ (e.ISTUP.length : Int) ≠ e.NUP ∨
        (e.MOTHUP.length : Int) ≠ e.NUP ∨ (e.ICOLUP.length : Int) ≠ e.NUP ∨
        (e.PUP.length : Int) ≠ e.NUP ∨ (e.VTIMUP.length : Int) ≠ e.NUP ∨
        (e.SPINUP.length : Int) ≠ e.NUP) →
      writerHepeup w e wok = (w, .error .MismatchedParticles)) := by
  constructor
  · intro hst hlo hhi hb1 hb2 hb3 hb4 hne
    unfold writerHeprup
    rw [assert_state_ok w _ _ hst]
    have hcond : castUsize r.NPRUP ≠ r.XSECUP.length ∨
        castUsize r.NPRUP ≠ r.XERRUP.length ∨
        castUsize r.NPRUP ≠ r.XMAXUP.length ∨
        castUsize r.NPRUP ≠ r.LPRUP.length := by
      rcases hne with h | h | h | h
      · exact Or.inl (fun hc => castUsize_ne_len hlo hhi hb1 h hc)
      · exact Or.inr (Or.inl (fun hc => castUsize_ne_len hlo hhi hb2 h hc))
      · exact Or.inr (Or.inr (Or.inl
          (fun hc => castUsize_ne_len hlo hhi hb3 h hc)))
      · exact Or.inr (Or.inr (Or.inr
          (fun hc => castUsize_ne_len hlo hhi hb4 h hc)))
    rw [if_pos hcond]
  · intro hst hlo hhi hb1 hb2 hb3 hb4 hb5 hb6 hb7 hne
    unfold writerHepeup
    rw [assert_state_ok w _ _ hst]
    have hcond : castUsize e.NUP ≠ e.IDUP.length ∨
        castUsize e.NUP ≠ e.ISTUP.length ∨
        castUsize e.NUP ≠ e.MOTHUP.length ∨
        castUsize e.NUP ≠ e.ICOLUP.length ∨
        castUsize e.NUP ≠ e.PUP.length ∨
        castUsize e.NUP ≠ e.VTIMUP.length ∨
        castUsize e.NUP ≠ e.SPINUP.length := by
      rcases hne with h | h | h | h | h | h | h
      · exact Or.inl (fun hc => castUsize_ne_len hlo hhi hb1 h hc)
      · exact Or.inr (Or.inl (fun hc => castUsize_ne_len hlo hhi hb2 h hc))
      · exact Or.inr (Or.inr (Or.inl
          (fun hc => castUsize_ne_len hlo hhi hb3 h hc)))
      · exact Or.inr (Or.inr (Or.inr (Or.inl
          (fun hc => castUsize_ne_len hlo hhi hb4 h hc))))
      · exact Or.inr (Or.inr (Or.inr (Or.inr (Or.inl
          (fun hc => castUsize_ne_len hlo hhi hb5 h hc)))))
      · exact Or.inr (Or.inr (Or.inr (Or.inr (Or.inr (Or.inl
          (fun hc => castUsize_ne_len hlo hhi hb6 h hc))))))
      · exact Or.inr (Or.inr (Or.inr (Or.inr (Or.inr (Or.inr
          (fun hc => castUsize_ne_len hlo hhi hb7 h hc))))))
    rw [if_pos hcond]

/-- C5 witness: a run-information record declaring two subprocesses over
one-element sequences and an event declaring three particles over
two-element sequences are both rejected with no output and no state
change. -/
theorem c5_count_mismatch_rejected_witness :
    writerHeprup ⟨[], .ExpectingHeaderOrInit⟩ badHeprup true =
      (⟨[], .ExpectingHeaderOrInit⟩, .error .MismatchedSubprocesses) ∧
    writerHepeup ⟨[], .ExpectingEventOrFinish⟩ badHepeup true =
      (⟨[], .ExpectingEventOrFinish⟩, .error .MismatchedParticles) := by
  have h1 := c5_count_mismatch_rejected ⟨[], .ExpectingHeaderOrInit⟩
    badHeprup badHepeup true
  have h2 := c5_count_mismatch_rejected ⟨[], .ExpectingEventOrFinish⟩
    badHeprup badHepeup true
  refine ⟨h1.1 (by decide) (by decide) (by decide) (by decide) (by decide)
      (by decide) (by decide) (by decide),
    h2.2 (by decide) (by decide) (by decide) (by decide) (by decide)
      (by decide) (by decide) (by decide) (by decide) (by decide)
      (by decide)⟩

/-- C6: once the writer is `Failed`, every write method still writes its
block to the stream (when the underlying write succeeds and the payload
passes its count validation), the writer stays `Failed` after every call
(with any argument and any underlying-write outcome), and the reported
error is the distinct `WriteToFailed`, not success and not a fresh I/O
error. -/
theorem c6_failed_sticky (w : WriterM) (hd : Str) (xh : XmlTree)
    (r : HEPRUP) (e : HEPEUP) (wok : Bool) (hw : w.state = .Failed) :
    writerHeader w hd true =
      ({ w with out := w.out ++ headerBlock hd }, .error .WriteToFailed) ∧
    writerXmlHeader w xh true =
      ({ w with out := w.out ++ xmlHeaderBlock xh }, .error .WriteToFailed) ∧
    (castUsize r.NPRUP = r.XSECUP.length → castUsize r.NPRUP = r.XERRUP.length →
      castUsize r.NPRUP = r.XMAXUP.length → castUsize r.NPRUP = r.LPRUP.length →
      writerHeprup w r true =
        ({ w with out := w.out ++ initBlock r }, .error .WriteToFailed)) ∧
    (castUsize e.NUP = e.IDUP.length → castUsize e.NUP = e.ISTUP.length →
      castUsize e.NUP = e.MOTHUP.length → castUsize e.NUP = e.ICOLUP.length →
      castUsize e.NUP = e.PUP.length → castUsize e.NUP = e.VTIMUP.length →
      castUsize e.NUP = e.SPINUP.length →
      writerHepeup w e true =
        ({ w with out := w.out ++ eventBlock e }, .error .WriteToFailed)) ∧
    writerFinish w true =
      ({ w with out := w.out ++ LHEF_LAST_LINE ++ strOf "\n" },
        .error .WriteToFailed) ∧
    (writerHeader w hd wok).1.state = .Failed ∧
    (writerXmlHeader w xh wok).1.state = .Failed ∧
    (writerHeprup w r wok).1.state = .Failed ∧
    (writerHepeup w e wok).1.state = .Failed ∧
    (writerFinish w wok).1.state = .Failed := by
  have hok : ∀ expected op, assert_state w expected op = .ok () :=
    fun expected op => assert_state_ok w expected op (Or.inr hw)
  refine ⟨?_, ?_, ?_, ?_, ?_, ?_, ?_, ?_, ?_, ?_⟩
  · unfold writerHeader
    rw [hok]
    simp [ok_unless_failed, hw]
  · unfold writerXmlHeader
    rw [hok]
    simp [ok_unless_failed, hw]
  · intro h1 h2 h3 h4
    unfold writerHeprup
    rw [hok]
    have hcond : ¬ (castUsize r.NPRUP ≠ r.XSECUP.length ∨
        castUsize r.NPRUP ≠ r.XERRUP.length ∨
        castUsize r.NPRUP ≠ r.XMAXUP.length ∨
        castUsize r.NPRUP ≠ r.LPRUP.length) := by
      simp only [not_or, not_not]
      exact ⟨h1, h2, h3, h4⟩
    rw [if_neg hcond]
    simp [ok_unless_failed, hw]
  · intro h1 h2 h3 h4 h5 h6 h7
    unfold writerHepeup
    rw [hok]
    have hcond : ¬ (castUsize e.NUP ≠ e.IDUP.length ∨
        castUsize e.NUP ≠ e.ISTUP.length ∨
        castUsize e.NUP ≠ e.MOTHUP.length ∨
        castUsize e.NUP ≠ e.ICOLUP.length ∨
        castUsize e.NUP ≠ e.PUP.length ∨
        castUsize e.NUP ≠ e.VTIMUP.length ∨
        castUsize e.NUP ≠ e.SPINUP.length) := by
      simp only [not_or, not_not]
      exact ⟨h1, h2, h3, h4, h5, h6, h7⟩
    rw [if_neg hcond]
    simp [ok_unless_failed, hw]
  · unfold writerFinish
    rw [hok]
    simp [ok_unless_failed, hw]
  · unfold writerHeader
    rw [hok]
    cases wok <;> simp [hw]
  · unfold writerXmlHeader
    rw [hok]
    cases wok <;> simp [hw]
  · unfold writerHeprup
    rw [hok]
    by_cases hcond : castUsize r.NPRUP ≠ r.XSECUP.length ∨
        castUsize r.NPRUP ≠ r.XERRUP.length ∨
        castUsize r.NPRUP ≠ r.XMAXUP.length ∨
        castUsize r.NPRUP ≠ r.LPRUP.length
    · rw [if_pos hcond]; exact hw
    · rw [if_neg hcond]; cases wok <;> simp [hw]
  · unfold writerHepeup
    rw [hok]
    by_cases hcond : castUsize e.NUP ≠ e.IDUP.length ∨
        castUsize e.NUP ≠ e.ISTUP.length ∨
        castUsize e.NUP ≠ e.MOTHUP.length ∨
        castUsize e.NUP ≠ e.ICOLUP.length ∨
        castUsize e.NUP ≠ e.PUP.length ∨
        castUsize e.NUP ≠ e.VTIMUP.length ∨
        castUsize e.NUP ≠ e.SPINUP.length
    · rw [if_pos hcond]; exact hw
    · rw [if_neg hcond]; cases wok <;> simp [hw]
  · unfold writerFinish
    rw [hok]
    cases wok <;> simp [hw]

/-- C6 witness: a `Failed` writer still appends the closing tag on
`finish`, reports `WriteToFailed`, and stays `Failed`. -/
theorem c6_failed_sticky_witness :
    writerFinish ⟨strOf "x", .Failed⟩ true =
      (⟨strOf "x" ++ LHEF_LAST_LINE ++ strOf "\n", .Failed⟩,
        .error .WriteToFailed) ∧
    (writerHeprup ⟨strOf "x", .Failed⟩ sampleHeprup false).1.state = .Failed := by
  have h := c6_failed_sticky ⟨strOf "x", .Failed⟩ (strOf "h") sampleXml
    sampleHeprup sampleHepeup false rfl
  exact ⟨h.2.2.2.2.1, h.2.2.2.2.2.2.2.2.1⟩

/-- C7: the destructor attempts `finish()` exactly in state
`ExpectingEventOrFinish`: when the underlying write succeeds the stream
afterwards ends in the outer closing-tag line, and in every other state the
destructor writes nothing and leaves the writer untouched. -/
theorem c7_drop_implicit_finish (w : WriterM) (wok : Bool) :
    (w.state = .ExpectingEventOrFinish →
      (writerDrop w true).out = w.out ++ (LHEF_LAST_LINE ++ strOf "\n")) ∧
    (w.state ≠ .ExpectingEventOrFinish → writerDrop w wok = w) := by
  constructor
  · intro h
    unfold writerDrop
    rw [if_pos h]
    unfold writerFinish
    rw [assert_state_ok w _ _ (Or.inl h), h]
    simp
  · intro h
    unfold writerDrop
    rw [if_neg h]

/-- C7 witness: dropping a writer that has written run information closes
the stream; dropping a `Finished` writer changes nothing. -/
theorem c7_drop_implicit_finish_witness :
    (writerDrop ⟨strOf "x", .ExpectingEventOrFinish⟩ true).out =
      strOf "x" ++ (LHEF_LAST_LINE ++ strOf "\n") ∧
    writerDrop ⟨strOf "x", .Finished⟩ true = ⟨strOf "x", .Finished⟩ := by
  exact ⟨(c7_drop_implicit_finish ⟨strOf "x", .ExpectingEventOrFinish⟩ true).1
      rfl,
    (c7_drop_implicit_finish ⟨strOf "x", .Finished⟩ true).2 (by decide)⟩

/-- C10: `Writer::new` performs no validation of its version argument: for
every version string, when the underlying write succeeds the writer is
created in state `ExpectingHeaderOrInit` having emitted exactly the opening
line with the version verbatim between double quotes — and for version
`"4.0"` the reader's version gate rejects that very line with
`UnsupportedVersion("4.0")`. -/
theorem c10_writer_new_unchecked (v : Str) :
    writerNew v true =
      .ok ⟨LHEF_TAG_OPEN ++ ['"'] ++ v ++ strOf "\">\n",
        .ExpectingHeaderOrInit⟩ ∧
    (v = strOf "4.0" →
      (parse_version [LHEF_TAG_OPEN ++ ['"'] ++ v ++ strOf "\">\n"]).1 =
        .error (.UnsupportedVersion (strOf "4.0"))) := by
  constructor
  · rfl
  · rintro rfl
    decide

/-- C10 witness: the unsupported version `"4.0"` is accepted by the writer
and the emitted first line is rejected by `parse_version`. -/
theorem c10_writer_new_unchecked_witness :
    writerNew (strOf "4.0") true =
      .ok ⟨LHEF_TAG_OPEN ++ ['"'] ++ strOf "4.0" ++ strOf "\">\n",
        .ExpectingHeaderOrInit⟩ ∧
    (parse_version [LHEF_TAG_OPEN ++ ['"'] ++ strOf "4.0" ++ strOf "\">\n"]).1 =
      .error (.UnsupportedVersion (strOf "4.0")) :=
  ⟨(c10_writer_new_unchecked (strOf "4.0")).1,
    (c10_writer_new_unchecked (strOf "4.0")).2 rfl⟩

/-! ## Version-gate lemmas (C2) -/

lemma startsWith_iff (s p : Str) : startsWith s p = true ↔ ∃ t, s = p ++ t := by
  induction p generalizing s with
  | nil => simp [startsWith]
  | cons q ps ih =>
    cases s with
    | nil => simp [startsWith]
    | cons c s' =>
      rw [startsWith]
      simp only [Bool.and_eq_true, beq_iff_eq, ih]
      constructor
      · rintro ⟨rfl, t, rfl⟩
        exact ⟨t, rfl⟩
      · rintro ⟨t, ht⟩
        obtain ⟨rfl, rfl⟩ : c = q ∧ s' = ps ++ t := by
          simpa using ht
        exact ⟨rfl, t, rfl⟩

lemma splitAux_ne_nil (sep : Char) :
    ∀ (s acc : Str), splitOnCharAux sep s acc ≠ [] := by
  intro s
  induction s with
  | nil => intro acc; simp [splitOnCharAux]
  | cons c t ih =>
    intro acc
    rw [splitOnCharAux]
    by_cases hc : c = sep
    · rw [if_pos hc]; simp
    · rw [if_neg hc]; exact ih (c :: acc)

lemma splitOnChar_head_decomp (sep : Char) (s : Str) :
    ∃ X u rest2, splitOnChar sep s = X :: rest2 ∧ s = X ++ u := by
  have haux : ∀ (t acc : Str), ∃ X u rest2,
      splitOnCharAux sep t acc = X :: rest2 ∧ acc.reverse ++ t = X ++ u := by
    intro t
    induction t with
    | nil => intro acc; exact ⟨acc.reverse, [], [], by simp [splitOnCharAux], by simp⟩
    | cons c t' ih =>
      intro acc
      rw [splitOnCharAux]
      by_cases hc : c = sep
      · rw [if_pos hc]
        exact ⟨acc.reverse, c :: t', _, rfl, rfl⟩
      · rw [if_neg hc]
        obtain ⟨X, u, rest2, h1, h2⟩ := ih (c :: acc)
        refine ⟨X, u, rest2, h1, ?_⟩
        have hrev : (c :: acc).reverse = acc.reverse ++ [c] := by simp
        rw [hrev, List.append_assoc] at h2
        simpa using h2
  obtain ⟨X, u, rest2, h1, h2⟩ := haux s []
  exact ⟨X, u, rest2, h1, by simpa using h2⟩

lemma mem_split_decomp {sep : Char} : ∀ {s : Str}, sep ∈ s →
    ∃ a b, s = a ++ sep :: b ∧ sep ∉ a := by
  intro s
  induction s with
  | nil => intro h; simp at h
  | cons c t ih =>
    intro h
    by_cases hc : c = sep
    · exact ⟨[], t, by simp [hc], by simp⟩
    · have : sep ∈ t := by
        rcases List.mem_cons.1 h with h1 | h1
        · exact absurd h1.symm hc
        · exact h1
      obtain ⟨a, b, rfl, ha⟩ := ih this
      refine ⟨c :: a, b, rfl, ?_⟩
      intro hm
      rcases List.mem_cons.1 hm with h1 | h1
      · exact hc h1.symm
      · exact ha h1

lemma splitOnChar_second_none_iff (sep : Char) (s : Str) :
    (splitOnChar sep s)[1]? = none ↔ sep ∉ s := by
  constructor
  · intro h hm
    obtain ⟨a, b, rfl, ha⟩ := mem_split_decomp hm
    unfold splitOnChar at h
    rw [splitAux_mid sep a b [] ha] at h
    cases hb : splitOnCharAux sep b [] with
    | nil => exact splitAux_ne_nil sep b [] hb
    | cons x xs => rw [hb] at h; simp at h
  · intro h
    unfold splitOnChar
    rw [splitAux_all_not sep s [] h]
    rfl

lemma parse_version_cons (line : Str) (rest : List Str) :
    parse_version (line :: rest) =
      (if (splitOnChar '"' (trim line)).head? ≠ some LHEF_TAG_OPEN then
        (.error (.BadFirstLine line), rest)
      else
        match (splitOnChar '"' (trim line))[1]? with
        | none => (.error .MissingVersion, rest)
        | some v =>
          if v = strOf "1.0" ∨ v = strOf "2.0" ∨ v = strOf "3.0" then
            if (splitOnChar '"' (trim line))[2]? ≠ some (strOf ">") then
              (.error (.BadFirstLine line), rest)
            else (.ok v, rest)
          else (.error (.UnsupportedVersion v), rest)) := rfl

/-- C2: the version gate of `Reader::new`.  With `entries` the pieces of
the trimmed first line split on `"` (so the piece before the first quote,
the quoted version, and the piece after it): a first line that does not
start with the opening-tag literal fails with `BadFirstLine` (the code
checks the stronger condition that the piece before the first quote equals
the literal exactly); when that piece is the literal, a quoted version
other than `"1.0"`/`"2.0"`/`"3.0"` fails with `UnsupportedVersion` carrying
that version; no quote at all — equivalently no quoted version — fails
with `MissingVersion`; and a supported version not followed immediately by
`>` fails with `BadFirstLine`. -/
theorem c2_version_gate (line : Str) (rest : List Str) :
    (startsWith (trim line) LHEF_TAG_OPEN = false →
      parse_version (line :: rest) = (.error (.BadFirstLine line), rest)) ∧
    ((splitOnChar '"' (trim line))[1]? = none ↔ '"' ∉ trim line) ∧
    ((splitOnChar '"' (trim line)).head? = some LHEF_TAG_OPEN →
      (splitOnChar '"' (trim line))[1]? = none →
      parse_version (line :: rest) = (.error .MissingVersion, rest)) ∧
    (∀ v, (splitOnChar '"' (trim line)).head? = some LHEF_TAG_OPEN →
      (splitOnChar '"' (trim line))[1]? = some v →
      v ≠ strOf "1.0" → v ≠ strOf "2.0" → v ≠ strOf "3.0" →
      parse_version (line :: rest) = (.error (.UnsupportedVersion v), rest)) ∧
    (∀ v, (splitOnChar '"' (trim line)).head? = some LHEF_TAG_OPEN →
      (splitOnChar '"' (trim line))[1]? = some v →
      (v = strOf "1.0" ∨ v = strOf "2.0" ∨ v = strOf "3.0") →
      (splitOnChar '"' (trim line))[2]? ≠ some (strOf ">") →
      parse_version (line :: rest) = (.error (.BadFirstLine line), rest)) := by
  refine ⟨?_, splitOnChar_second_none_iff '"' (trim line), ?_, ?_, ?_⟩
  · intro hsw
    rw [parse_version_cons]
    have hne : (splitOnChar '"' (trim line)).head? ≠ some LHEF_TAG_OPEN := by
      intro hhd
      obtain ⟨X, u, rest2, h1, h2⟩ := splitOnChar_head_decomp '"' (trim line)
      rw [h1] at hhd
      obtain rfl : X = LHEF_TAG_OPEN := by simpa using hhd
      have : startsWith (trim line) LHEF_TAG_OPEN = true :=
        (startsWith_iff _ _).2 ⟨u, h2⟩
      rw [this] at hsw
      cases hsw
    rw [if_pos hne]
  · intro hhd hnone
    rw [parse_version_cons, if_neg (by simp [hhd]), hnone]
  · intro v hhd hv h1 h2 h3
    rw [parse_version_cons, if_neg (by simp [hhd]), hv]
    show (if v = strOf "1.0" ∨ v = strOf "2.0" ∨ v = strOf "3.0" then
        if (splitOnChar '"' (trim line))[2]? ≠ some (strOf ">") then
          (Except.error (ParseError.BadFirstLine line), rest)
        else (Except.ok v, rest)
      else (Except.error (ParseError.UnsupportedVersion v), rest)) = _
    rw [if_neg (by simp [h1, h2, h3])]
  · intro v hhd hv hsup hcl
    rw [parse_version_cons, if_neg (by simp [hhd]), hv]
    show (if v = strOf "1.0" ∨ v = strOf "2.0" ∨ v = strOf "3.0" then
        if (splitOnChar '"' (trim line))[2]? ≠ some (strOf ">") then
          (Except.error (ParseError.BadFirstLine line), rest)
        else (Except.ok v, rest)
      else (Except.error (ParseError.UnsupportedVersion v), rest)) = _
    rw [if_pos hsup, if_pos hcl]

/-- C2 witness: four concrete first lines — a `"4.0"` version, a line that
is exactly the opening tag with no quoted version, a line not starting with
the opening tag, and a supported version that is not properly closed. -/
theorem c2_version_gate_witness :
    (parse_version [strOf "<LesHouchesEvents version=\"4.0\">\n"]).1 =
      .error (.UnsupportedVersion (strOf "4.0")) ∧
    (parse_version [strOf "<LesHouchesEvents version=\n"]).1 =
      .error .MissingVersion ∧
    (parse_version [strOf "<hello>\n"]).1 =
      .error (.BadFirstLine (strOf "<hello>\n")) ∧
    (parse_version [strOf "<LesHouchesEvents version=\"1.0\"x>\n"]).1 =
      .error (.BadFirstLine (strOf "<LesHouchesEvents version=\"1.0\"x>\n")) := by
  refine ⟨?_, ?_, ?_, ?_⟩
  · have h := (c2_version_gate (strOf "<LesHouchesEvents version=\"4.0\">\n")
      []).2.2.2.1 (strOf "4.0") (by decide) (by decide) (by decide)
      (by decide) (by decide)
    rw [h]
  · have h := (c2_version_gate (strOf "<LesHouchesEvents version=\n")
      []).2.2.1 (by decide) (by decide)
    rw [h]
  · have h := (c2_version_gate (strOf "<hello>\n") []).1 (by decide)
    rw [h]
  · have h := (c2_version_gate
      (strOf "<LesHouchesEvents version=\"1.0\"x>\n") []).2.2.2.2
      (strOf "1.0") (by decide) (by decide) (by decide) (by decide)
    rw [h]

/-! ## Reader::hepeup dispatch (C8) -/

lemma readerHepeup_cons (line : Str) (s : List Str) :
    readerHepeup (line :: s) =
      (if startsWith line EVENT_START then
        match parse_event line s with
        | (.ok e, s') => (.ok (some e), s')
        | (.error err, s') => (.error err, s')
      else if trim line = LHEF_LAST_LINE then (.ok none, s)
      else (.error (.BadEventStart line), s)) := rfl

/-- C8 (amended): `Reader::hepeup` dispatches on the next line — a line
starting with the event-open token yields the event parser's outcome
(`Some event` exactly on parse success), the outer closing tag (after
trimming) yields the end-of-stream signal `none`, and any other line fails
with `BadEventStart` carrying that line.  After the end marker the
exhausted stream hands back the empty line, so every further call returns
`BadEventStart ""` (the stream unchanged), not `none` again. -/
theorem c8_hepeup_dispatch (line : Str) (s : List Str) :
    (startsWith line EVENT_START = true →
      (∀ e s', parse_event line s = (.ok e, s') →
        readerHepeup (line :: s) = (.ok (some e), s')) ∧
      (∀ err s', parse_event line s = (.error err, s') →
        readerHepeup (line :: s) = (.error err, s'))) ∧
    (startsWith line EVENT_START = false → trim line = LHEF_LAST_LINE →
      readerHepeup (line :: s) = (.ok none, s)) ∧
    (startsWith line EVENT_START = false → trim line ≠ LHEF_LAST_LINE →
      readerHepeup (line :: s) = (.error (.BadEventStart line), s)) ∧
    readerHepeup [] = (.error (.BadEventStart []), []) := by
  refine ⟨?_, ?_, ?_, rfl⟩
  · intro hsw
    constructor
    · intro e s' hpe
      rw [readerHepeup_cons, if_pos hsw, hpe]
    · intro err s' hpe
      rw [readerHepeup_cons, if_pos hsw, hpe]
  · intro h1 h2
    rw [readerHepeup_cons, if_neg (by simp [h1]), if_pos h2]
  · intro h1 h2
    rw [readerHepeup_cons, if_neg (by simp [h1]), if_neg h2]

/-- C8 counterexample: once the end marker has been consumed (a call
returned `none` and the stream reports no further lines), a further
`hepeup` call does not return `none` — it fails with `BadEventStart` of
the empty line. -/
theorem c8_counterexample :
    readerHepeup [strOf "</LesHouchesEvents>\n"] = (.ok none, []) ∧
    readerHepeup [] = (.error (.BadEventStart []), []) ∧
    (readerHepeup []).1 ≠ .ok none := by
  refine ⟨by decide, rfl, by decide⟩

/-- C8 witness: the three dispatch branches at concrete lines. -/
theorem c8_hepeup_dispatch_witness :
    readerHepeup [strOf "</LesHouchesEvents>\n"] = (.ok none, []) ∧
    readerHepeup [strOf "oops\n"] =
      (.error (.BadEventStart (strOf "oops\n")), []) ∧
    readerHepeup [strOf "<event>\n"] =
      (.error (.MissingEntry (strOf "NUP")), []) := by
  refine ⟨(c8_hepeup_dispatch (strOf "</LesHouchesEvents>\n") []).2.1
      (by decide) (by decide),
    (c8_hepeup_dispatch (strOf "oops\n") []).2.2.1 (by decide) (by decide),
    ((c8_hepeup_dispatch (strOf "<event>\n") []).1 (by decide)).2
      (.MissingEntry (strOf "NUP")) [] (by decide)⟩

/-! ## Attribute-grammar lemmas (C3) -/

lemma findIdx?_tok {p : Char → Bool} (a : Str) (d : Char) (b : Str)
    (ha : ∀ c ∈ a, p c = false) (hd : p d = true) :
    (a ++ d :: b).findIdx? p = some a.length := by
  rw [List.findIdx?_append, List.findIdx?_eq_none_iff.2 ha, List.findIdx?_cons]
  simp [hd]

lemma next_attr_no_name (s : Str)
    (h : ∀ c ∈ s, isWs c = false ∧ c ≠ '=') :
    next_attr s = .ok (none, s) := by
  simp only [next_attr]
  rw [List.findIdx?_eq_none_iff.2 (fun c hc => by simp [(h c hc).1, (h c hc).2])]

lemma next_attr_missing_eq (name : Str) (d : Char) (r : Str)
    (hn : ∀ c ∈ name, isWs c = false ∧ c ≠ '=')
    (hd : isWs d = true ∨ d = '=')
    (hne : ∀ c, (trimStart (d :: r)).head? = some c → c ≠ '=') :
    next_attr (name ++ d :: r) = .error (.BadXmlTag (name ++ d :: r)) := by
  simp only [next_attr]
  rw [findIdx?_tok name d r
    (fun c hc => by simp [(hn c hc).1, (hn c hc).2])
    (by rcases hd with hd | hd <;> simp [hd])]
  have htake : List.take (List.length name) (name ++ d :: r) = name :=
    List.take_left' rfl
  have hdrop : List.drop (List.length name) (name ++ d :: r) = d :: r :=
    List.drop_left' rfl
  have hsw : startsWith (trimStart (d :: r)) (strOf "=") = false := by
    cases hts : trimStart (d :: r) with
    | nil => rfl
    | cons c cs =>
      have := hne c (by rw [hts]; rfl)
      show (c == '=' && startsWith cs []) = false
      simp [this]
  simp only [htake, hdrop]
  rw [if_pos (by simp [hsw])]

lemma next_attr_after_eq (name : Str) (d : Char) (r r2 : Str)
    (hn : ∀ c ∈ name, isWs c = false ∧ c ≠ '=')
    (hd : isWs d = true ∨ d = '=')
    (heq : trimStart (d :: r) = '=' :: r2) :
    next_attr (name ++ d :: r) =
      (match (trimStart r2).head? with
      | none => .error (.BadXmlTag (name ++ d :: r))
      | some quote =>
        if quote ≠ '\'' ∧ quote ≠ '"' then .error (.BadXmlTag (name ++ d :: r))
        else
          match (trimStart r2).drop 1 |>.findIdx? (fun c => c == quote) with
          | none => .error (.BadXmlTag (name ++ d :: r))
          | some vidx =>
            let value := ((trimStart r2).drop 1).take vidx
            .ok (some (name, value),
              trimStart (((trimStart r2).drop 1).drop (value.length + 1)))) := by
  simp only [next_attr]
  rw [findIdx?_tok name d r
    (fun c hc => by simp [(hn c hc).1, (hn c hc).2])
    (by rcases hd with hd | hd <;> simp [hd])]
  have htake : List.take (List.length name) (name ++ d :: r) = name :=
    List.take_left' rfl
  have hdrop : List.drop (List.length name) (name ++ d :: r) = d :: r :=
    List.drop_left' rfl
  simp only [htake, hdrop, heq]
  rw [if_neg (by simp [startsWith])]
  rfl

lemma next_attr_error_shape (s : Str) (e : ParseError)
    (h : next_attr s = .error e) : e = .BadXmlTag s := by
  simp only [next_attr] at h
  split at h
  · simp at h
  · split at h
    · simp only [Except.error.injEq] at h
      exact h.symm
    · split at h
      · simp only [Except.error.injEq] at h
        exact h.symm
      · split at h
        · simp only [Except.error.injEq] at h
          exact h.symm
        · split at h
          · simp only [Except.error.injEq] at h
            exact h.symm
          · simp at h

lemma extract_attrs_error_shape :
    ∀ (fuel : Nat) (s : Str) (attr : XmlAttr) (e : ParseError),
      extract_attrs fuel s attr = .error e → ∃ t, e = .BadXmlTag t := by
  intro fuel
  induction fuel with
  | zero => intro s attr e h; simp [extract_attrs] at h
  | succ f ih =>
    intro s attr e h
    rw [extract_attrs] at h
    cases hna : next_attr s with
    | error e' =>
      rw [hna] at h
      simp only [Except.error.injEq] at h
      exact ⟨s, h.symm.trans (next_attr_error_shape s e' hna)⟩
    | ok p =>
      obtain ⟨op, rem⟩ := p
      cases op with
      | none => rw [hna] at h; simp at h
      | some nv =>
        obtain ⟨n, v⟩ := nv
        rw [hna] at h
        exact ih rem (attrInsert attr n v) e h

lemma extract_xml_attr_str_error (tag : Str) (e : ParseError)
    (h : extract_xml_attr_str tag = .error e) : e = .BadXmlTag tag := by
  simp only [extract_xml_attr_str] at h
  split at h
  · simp only [Except.error.injEq] at h
    exact h.symm
  · split at h <;> simp at h

lemma extract_xml_attr_str_no_gt (tag : Str)
    (h : endsWithChar (trim tag) '>' = false) :
    extract_xml_attr_str tag = .error (.BadXmlTag tag) := by
  simp only [extract_xml_attr_str]
  rw [if_pos (by simp [h])]

/-- C3: the error behaviour of attribute extraction.  (i) A tag whose
trimmed form does not end in `>` fails with `BadXmlTag`; (ii) a tag with no
attribute text (no whitespace inside the trimmed tag) returns the empty
attribute map without error; (iii) every error attribute extraction can
produce is a `BadXmlTag`; and, scanning one attribute off the remaining
attribute text (`next_attr`): (iv) a name not followed — after optional
whitespace — by `=` fails with `BadXmlTag`, (v) an `=` not followed — after
optional whitespace — by a single or double quote fails with `BadXmlTag`,
(vi) a quoted value with no matching closing quote fails with `BadXmlTag`,
and (vii) a well-formed `name=<quote>value<quote>` is consumed without
error; (viii) text with no name terminator ends the scan without error. -/
theorem c3_attr_errors (tag : Str) :
    (endsWithChar (trim tag) '>' = false →
      extract_xml_attr tag = .error (.BadXmlTag tag)) ∧
    (endsWithChar (trim tag) '>' = true →
      (∀ c ∈ (trim tag).dropLast, isWs c = false) →
      extract_xml_attr tag = .ok []) ∧
    (∀ e, extract_xml_attr tag = .error e → ∃ t, e = .BadXmlTag t) ∧
    (∀ (name : Str) (d : Char) (r : Str),
      (∀ c ∈ name, isWs c = false ∧ c ≠ '=') →
      (isWs d = true ∨ d = '=') →
      (∀ c, (trimStart (d :: r)).head? = some c → c ≠ '=') →
      next_attr (name ++ d :: r) = .error (.BadXmlTag (name ++ d :: r))) ∧
    (∀ (name : Str) (d : Char) (r r2 : Str),
      (∀ c ∈ name, isWs c = false ∧ c ≠ '=') →
      (isWs d = true ∨ d = '=') →
      trimStart (d :: r) = '=' :: r2 →
      (∀ c, (trimStart r2).head? = some c → c ≠ '\'' ∧ c ≠ '"') →
      next_attr (name ++ d :: r) = .error (.BadXmlTag (name ++ d :: r))) ∧
    (∀ (name : Str) (d : Char) (r r2 : Str) (q : Char) (r3 : Str),
      (∀ c ∈ name, isWs c = false ∧ c ≠ '=') →
      (isWs d = true ∨ d = '=') →
      trimStart (d :: r) = '=' :: r2 →
      trimStart r2 = q :: r3 →
      (q = '\'' ∨ q = '"') →
      (∀ c ∈ r3, c ≠ q) →
      next_attr (name ++ d :: r) = .error (.BadXmlTag (name ++ d :: r))) ∧
    (∀ (name : Str) (d : Char) (r r2 : Str) (q : Char) (v r4 : Str),
      (∀ c ∈ name, isWs c = false ∧ c ≠ '=') →
      (isWs d = true ∨ d = '=') →
      trimStart (d :: r) = '=' :: r2 →
      trimStart r2 = q :: (v ++ q :: r4) →
      (q = '\'' ∨ q = '"') →
      (∀ c ∈ v, c ≠ q) →
      next_attr (name ++ d :: r) = .ok (some (name, v), trimStart r4)) ∧
    (∀ (s : Str), (∀ c ∈ s, isWs c = false ∧ c ≠ '=') →
      next_attr s = .ok (none, s)) := by
  refine ⟨?_, ?_, ?_, next_attr_missing_eq, ?_, ?_, ?_, next_attr_no_name⟩
  · intro h
    unfold extract_xml_attr
    rw [extract_xml_attr_str_no_gt tag h]
  · intro h1 h2
    unfold extract_xml_attr
    have hstr : extract_xml_attr_str tag = .ok [] := by
      simp only [extract_xml_attr_str]
      rw [if_neg (by simp [h1]), List.findIdx?_eq_none_iff.2
        (fun c hc => h2 c hc)]
    rw [hstr]
    rfl
  · intro e h
    unfold extract_xml_attr at h
    cases hstr : extract_xml_attr_str tag with
    | error e' =>
      rw [hstr] at h
      simp only [Except.error.injEq] at h
      exact ⟨tag, h.symm.trans (extract_xml_attr_str_error tag e' hstr)⟩
    | ok s =>
      rw [hstr] at h
      exact extract_attrs_error_shape (s.length + 1) s [] e h
  · intro name d r r2 hn hd heq hq
    rw [next_attr_after_eq name d r r2 hn hd heq]
    cases hh : (trimStart r2).head? with
    | none => rfl
    | some q =>
      obtain ⟨hq1, hq2⟩ := hq q hh
      simp [hq1, hq2]
  · intro name d r r2 q r3 hn hd heq heads hquote hnoq
    rw [next_attr_after_eq name d r r2 hn hd heq, heads]
    simp only [List.head?_cons]
    rw [if_neg (by rcases hquote with rfl | rfl <;> simp)]
    have hdrop : (q :: r3).drop 1 = r3 := rfl
    rw [hdrop, List.findIdx?_eq_none_iff.2
      (fun c hc => by simp [hnoq c hc])]
  · intro name d r r2 q v r4 hn hd heq heads hquote hnov
    rw [next_attr_after_eq name d r r2 hn hd heq, heads]
    simp only [List.head?_cons]
    rw [if_neg (by rcases hquote with rfl | rfl <;> simp)]
    have hdrop : (q :: (v ++ q :: r4)).drop 1 = v ++ q :: r4 := rfl
    rw [hdrop, findIdx?_tok v q r4 (fun c hc => by simp [hnov c hc]) (by simp)]
    have htake : List.take (List.length v) (v ++ q :: r4) = v :=
      List.take_left' rfl
    have hsplit : v ++ q :: r4 = (v ++ [q]) ++ r4 := by simp
    have hdrop2 : List.drop (List.length v + 1) (v ++ q :: r4) = r4 := by
      rw [hsplit]
      exact List.drop_left' (by simp)
    simp only [htake, hdrop2]

/-- C3 witness: concrete tags — no closing `>`, an attribute-free tag, a
name without `=`, a value without opening quote, an unclosed value, and a
well-formed attribute pair. -/
theorem c3_attr_errors_witness :
    extract_xml_attr (strOf "<init") =
      .error (.BadXmlTag (strOf "<init")) ∧
    extract_xml_attr (strOf "<init>") = .ok [] ∧
    next_attr (strOf "a b") = .error (.BadXmlTag (strOf "a b")) ∧
    next_attr (strOf "a=1") = .error (.BadXmlTag (strOf "a=1")) ∧
    next_attr (strOf "a=\"1") = .error (.BadXmlTag (strOf "a=\"1")) ∧
    next_attr (strOf "a=\"1\" rest") =
      .ok (some (strOf "a", strOf "1"), strOf "rest") := by
  refine ⟨?_, ?_, ?_, ?_, ?_, ?_⟩
  · exact (c3_attr_errors (strOf "<init")).1 (by decide)
  · exact (c3_attr_errors (strOf "<init>")).2.1 (by decide) (by decide)
  · exact (c3_attr_errors (strOf "a b")).2.2.2.1 (strOf "a") ' ' (strOf "b")
      (by decide) (by decide) (by decide)
  · exact (c3_attr_errors (strOf "a=1")).2.2.2.2.1 (strOf "a") '=' (strOf "1")
      (strOf "1") (by decide) (by decide) (by decide) (by decide)
  · exact (c3_attr_errors (strOf "a=\"1")).2.2.2.2.2.1 (strOf "a") '='
      (strOf "\"1") (strOf "\"1") '"' (strOf "1") (by decide) (by decide)
      (by decide) (by decide) (by decide) (by decide)
  · exact (c3_attr_errors (strOf "a=\"1\" rest")).2.2.2.2.2.2.1 (strOf "a")
      '=' (strOf "\"1\" rest") (strOf "\"1\" rest") '"' (strOf "1")
      (strOf " rest") (by decide) (by decide) (by decide) (by decide)
      (by decide) (by decide)

/-! ## Accumulation-loop lemmas (round trip) -/

lemma read_lines_until_ok (stop : Str) :
    ∀ (ls : List Str) (rest : List Str) (acc last : Str),
      (acc = [] ∨ endsNl acc) →
      (∀ l ∈ ls, wfLine l ∧ trim l.dropLast ≠ stop) →
      wfLine last → trim last.dropLast = stop →
      read_lines_until stop acc (ls ++ last :: rest) =
        (.ok (acc ++ ls.flatten ++ last), rest) := by
  intro ls
  induction ls with
  | nil =>
    intro rest acc last hacc _ hwf hstop
    obtain ⟨m, rfl, hm⟩ := hwf
    rw [List.dropLast_concat] at hstop
    rw [List.nil_append, read_lines_until,
      lastLine_closed acc m hm hacc, if_pos hstop]
    simp
  | cons l ls ih =>
    intro rest acc last hacc hls hwf hstop
    obtain ⟨hwl, hne⟩ := hls l (by simp)
    obtain ⟨m, hml, hm⟩ := hwl
    subst hml
    rw [List.dropLast_concat] at hne
    rw [List.cons_append, read_lines_until,
      lastLine_closed acc m hm hacc, if_neg hne]
    rw [ih rest (acc ++ (m ++ ['\n'])) last
      (Or.inr (endsNl_append acc _ ((endsNl_iff _).2 ⟨m, rfl⟩)))
      (fun l hl => hls l (by simp [hl])) hwf hstop]
    simp

lemma init_info_ok :
    ∀ (ls : List Str) (rest : List Str) (acc : Str),
      (acc = [] ∨ endsNl acc) →
      (∀ l ∈ ls, wfLine l ∧ l.dropLast ≠ INIT_END) →
      init_info_lines acc (ls ++ (INIT_END ++ ['\n']) :: rest) =
        (.ok (acc ++ ls.flatten), rest) := by
  intro ls
  induction ls with
  | nil =>
    intro rest acc hacc _
    have hm : '\n' ∉ INIT_END := by decide
    rw [List.nil_append, init_info_lines,
      lastLine_closed acc INIT_END hm hacc, if_pos rfl,
      popLine_closed acc INIT_END hm hacc]
    simp
  | cons l ls ih =>
    intro rest acc hacc hls
    obtain ⟨hwl, hne⟩ := hls l (by simp)
    obtain ⟨m, hml, hm⟩ := hwl
    subst hml
    rw [List.dropLast_concat] at hne
    rw [List.cons_append, init_info_lines,
      lastLine_closed acc m hm hacc, if_neg hne]
    rw [ih rest (acc ++ (m ++ ['\n']))
      (Or.inr (endsNl_append acc _ ((endsNl_iff _).2 ⟨m, rfl⟩)))
      (fun l hl => hls l (by simp [hl]))]
    simp

lemma event_info_ok :
    ∀ (ls : List Str) (rest : List Str) (acc : Str),
      (acc = [] ∨ endsNl acc) →
      (∀ l ∈ ls, wfLine l ∧ trim l.dropLast ≠ EVENT_END) →
      event_info_lines acc (ls ++ (EVENT_END ++ ['\n']) :: rest) =
        (.ok (acc ++ ls.flatten), rest) := by
  intro ls
  induction ls with
  | nil =>
    intro rest acc hacc _
    have hm : '\n' ∉ EVENT_END := by decide
    rw [List.nil_append, event_info_lines,
      lastLine_closed acc EVENT_END hm hacc,
      if_pos (show trim EVENT_END = EVENT_END by decide),
      popLine_closed acc EVENT_END hm hacc]
    simp
  | cons l ls ih =>
    intro rest acc hacc hls
    obtain ⟨hwl, hne⟩ := hls l (by simp)
    obtain ⟨m, hml, hm⟩ := hwl
    subst hml
    rw [List.dropLast_concat] at hne
    rw [List.cons_append, event_info_lines,
      lastLine_closed acc m hm hacc, if_neg hne]
    rw [ih rest (acc ++ (m ++ ['\n']))
      (Or.inr (endsNl_append acc _ ((endsNl_iff _).2 ⟨m, rfl⟩)))
      (fun l hl => hls l (by simp [hl]))]
    simp

/-! ## Record-line lemmas (round trip) -/

lemma strOf_nl : strOf "\n" = ['\n'] := rfl

lemma readLineFst (l : Str) (ls : List Str) : (readLine (l :: ls)).1 = l := rfl

lemma readLineSnd (l : Str) (ls : List Str) : (readLine (l :: ls)).2 = ls := rfl

lemma no_nl_of_noWsTok {t : Str} (h : noWsTok t) : '\n' ∉ t := by
  intro hm
  have := h.2 '\n' hm
  simp [isWs] at this

lemma no_nl_append {a b : Str} (ha : '\n' ∉ a) (hb : '\n' ∉ b) :
    '\n' ∉ a ++ b := by
  intro hm
  rcases List.mem_append.1 hm with hm | hm
  · exact ha hm
  · exact hb hm

lemma no_nl_space : '\n' ∉ [' '] := by decide

lemma sw_initRecordLine (r : HEPRUP) :
    splitWhitespace (initRecordLine r) =
      [intToStr r.IDBMUP.1, intToStr r.IDBMUP.2, fmtF64 r.EBMUP.1,
        fmtF64 r.EBMUP.2, intToStr r.PDFGUP.1, intToStr r.PDFGUP.2,
        intToStr r.PDFSUP.1, intToStr r.PDFSUP.2, intToStr r.IDWTUP,
        intToStr r.NPRUP] := by
  unfold initRecordLine
  simp only [List.append_assoc, List.cons_append, List.nil_append, strOf_nl]
  rw [sw_space_chain _ _ (intToStr_noWsTok _),
    sw_space_chain _ _ (intToStr_noWsTok _),
    sw_space_chain _ _ (fmtF64_noWsTok _),
    sw_space_chain _ _ (fmtF64_noWsTok _),
    sw_space_chain _ _ (intToStr_noWsTok _),
    sw_space_chain _ _ (intToStr_noWsTok _),
    sw_space_chain _ _ (intToStr_noWsTok _),
    sw_space_chain _ _ (intToStr_noWsTok _),
    sw_space_chain _ _ (intToStr_noWsTok _),
    sw_end_line _ (intToStr_noWsTok _)]

lemma parseInitRecord_rt (r : HEPRUP) :
    parseInitRecord (splitWhitespace (initRecordLine r)) =
      .ok (r.IDBMUP, r.EBMUP, r.PDFGUP, r.PDFSUP, r.IDWTUP, r.NPRUP) := by
  rw [sw_initRecordLine]
  simp only [parseInitRecord, List.getElem?_cons_zero, List.getElem?_cons_succ,
    parseEntry_int, parseEntryF64_fmt]
  rfl

lemma toLines_initRecordLine (r : HEPRUP) :
    toLines (initRecordLine r) = [initRecordLine r] := by
  have hA : '\n' ∉ (intToStr r.IDBMUP.1 ++ [' '] ++ intToStr r.IDBMUP.2 ++
      [' '] ++ fmtF64 r.EBMUP.1 ++ [' '] ++ fmtF64 r.EBMUP.2 ++ [' '] ++
      intToStr r.PDFGUP.1 ++ [' '] ++ intToStr r.PDFGUP.2 ++ [' '] ++
      intToStr r.PDFSUP.1 ++ [' '] ++ intToStr r.PDFSUP.2 ++ [' '] ++
      intToStr r.IDWTUP ++ [' '] ++ intToStr r.NPRUP) := by
    repeat
      first
      | apply no_nl_append
      | exact no_nl_space
      | exact no_nl_of_noWsTok (intToStr_noWsTok _)
      | exact no_nl_of_noWsTok (fmtF64_noWsTok _)
  show toLines (_ ++ strOf "\n") = _
  rw [strOf_nl, toLines_line _ hA]
  rfl

lemma endsNl_initRecordLine (r : HEPRUP) : endsNl (initRecordLine r) := by
  apply endsNl_append
  rw [strOf_nl]
  exact (endsNl_iff _).2 ⟨[], rfl⟩

lemma sw_subprocessLine (x e m : F64) (l : Int) :
    splitWhitespace (fmtF64 x ++ [' '] ++ fmtF64 e ++ [' '] ++ fmtF64 m ++
      [' '] ++ intToStr l ++ strOf "\n") =
      [fmtF64 x, fmtF64 e, fmtF64 m, intToStr l] := by
  simp only [List.append_assoc, List.cons_append, List.nil_append, strOf_nl]
  rw [sw_space_chain _ _ (fmtF64_noWsTok _),
    sw_space_chain _ _ (fmtF64_noWsTok _),
    sw_space_chain _ _ (fmtF64_noWsTok _),
    sw_end_line _ (intToStr_noWsTok _)]

lemma parseSubprocessLine_rt (i : Nat) (x e m : F64) (l : Int) :
    parseSubprocessLine i (splitWhitespace (fmtF64 x ++ [' '] ++ fmtF64 e ++
      [' '] ++ fmtF64 m ++ [' '] ++ intToStr l ++ strOf "\n")) =
      .ok (x, e, m, l) := by
  rw [sw_subprocessLine]
  simp only [parseSubprocessLine, List.getElem?_cons_zero,
    List.getElem?_cons_succ, parseEntry_int, parseEntryF64_fmt]
  rfl

lemma toLines_subprocessLine (x e m : F64) (l : Int) :
    toLines (fmtF64 x ++ [' '] ++ fmtF64 e ++ [' '] ++ fmtF64 m ++ [' '] ++
      intToStr l ++ strOf "\n") =
      [fmtF64 x ++ [' '] ++ fmtF64 e ++ [' '] ++ fmtF64 m ++ [' '] ++
        intToStr l ++ strOf "\n"] := by
  have hA : '\n' ∉ (fmtF64 x ++ [' '] ++ fmtF64 e ++ [' '] ++ fmtF64 m ++
      [' '] ++ intToStr l) := by
    repeat
      first
      | apply no_nl_append
      | exact no_nl_space
      | exact no_nl_of_noWsTok (intToStr_noWsTok _)
      | exact no_nl_of_noWsTok (fmtF64_noWsTok _)
  show toLines (_ ++ strOf "\n") = _
  rw [strOf_nl, toLines_line _ hA]

lemma sw_eventRecordLine (e : HEPEUP) :
    splitWhitespace (eventRecordLine e) =
      [intToStr e.NUP, intToStr e.IDRUP, fmtF64 e.XWGTUP, fmtF64 e.SCALUP,
        fmtF64 e.AQEDUP, fmtF64 e.AQCDUP] := by
  unfold eventRecordLine
  simp only [List.append_assoc, List.cons_append, List.nil_append, strOf_nl]
  rw [sw_space_chain _ _ (intToStr_noWsTok _),
    sw_space_chain _ _ (intToStr_noWsTok _),
    sw_space_chain _ _ (fmtF64_noWsTok _),
    sw_space_chain _ _ (fmtF64_noWsTok _),
    sw_space_chain _ _ (fmtF64_noWsTok _),
    sw_end_line _ (fmtF64_noWsTok _)]

lemma parseEventRecord_rt (e : HEPEUP) :
    parseEventRecord (splitWhitespace (eventRecordLine e)) =
      .ok (e.NUP, e.IDRUP, e.XWGTUP, e.SCALUP, e.AQEDUP, e.AQCDUP) := by
  rw [sw_eventRecordLine]
  simp only [parseEventRecord, List.getElem?_cons_zero,
    List.getElem?_cons_succ, parseEntry_int, parseEntryF64_fmt]
  rfl

lemma toLines_eventRecordLine (e : HEPEUP) :
    toLines (eventRecordLine e) = [eventRecordLine e] := by
  have hA : '\n' ∉ (intToStr e.NUP ++ [' '] ++ intToStr e.IDRUP ++ [' '] ++
      fmtF64 e.XWGTUP ++ [' '] ++ fmtF64 e.SCALUP ++ [' '] ++
      fmtF64 e.AQEDUP ++ [' '] ++ fmtF64 e.AQCDUP) := by
    repeat
      first
      | apply no_nl_append
      | exact no_nl_space
      | exact no_nl_of_noWsTok (intToStr_noWsTok _)
      | exact no_nl_of_noWsTok (fmtF64_noWsTok _)
  show toLines (_ ++ strOf "\n") = _
  rw [strOf_nl, toLines_line _ hA]
  rfl

lemma endsNl_eventRecordLine (e : HEPEUP) : endsNl (eventRecordLine e) := by
  apply endsNl_append
  rw [strOf_nl]
  exact (endsNl_iff _).2 ⟨[], rfl⟩

lemma sw_particleLine (id st : Int) (m c : Int × Int)
    (p : F64 × F64 × F64 × F64 × F64) (v sp : F64) :
    splitWhitespace (intToStr id ++ [' '] ++ intToStr st ++ [' '] ++
      intToStr m.1 ++ [' '] ++ intToStr m.2 ++ [' '] ++
      intToStr c.1 ++ [' '] ++ intToStr c.2 ++ [' '] ++
      fmtF64 p.1 ++ [' '] ++ fmtF64 p.2.1 ++ [' '] ++ fmtF64 p.2.2.1 ++
      [' '] ++ fmtF64 p.2.2.2.1 ++ [' '] ++ fmtF64 p.2.2.2.2 ++ [' '] ++
      fmtF64 v ++ [' '] ++ fmtF64 sp ++ strOf "\n") =
      [intToStr id, intToStr st, intToStr m.1, intToStr m.2, intToStr c.1,
        intToStr c.2, fmtF64 p.1, fmtF64 p.2.1, fmtF64 p.2.2.1,
        fmtF64 p.2.2.2.1, fmtF64 p.2.2.2.2, fmtF64 v, fmtF64 sp] := by
  simp only [List.append_assoc, List.cons_append, List.nil_append, strOf_nl]
  rw [sw_space_chain _ _ (intToStr_noWsTok _),
    sw_space_chain _ _ (intToStr_noWsTok _),
    sw_space_chain _ _ (intToStr_noWsTok _),
    sw_space_chain _ _ (intToStr_noWsTok _),
    sw_space_chain _ _ (intToStr_noWsTok _),
    sw_space_chain _ _ (intToStr_noWsTok _),
    sw_space_chain _ _ (fmtF64_noWsTok _),
    sw_space_chain _ _ (fmtF64_noWsTok _),
    sw_space_chain _ _ (fmtF64_noWsTok _),
    sw_space_chain _ _ (fmtF64_noWsTok _),
    sw_space_chain _ _ (fmtF64_noWsTok _),
    sw_space_chain _ _ (fmtF64_noWsTok _),
    sw_end_line _ (fmtF64_noWsTok _)]

lemma parseParticleLine_rt (i : Nat) (id st : Int) (m c : Int × Int)
    (p : F64 × F64 × F64 × F64 × F64) (v sp : F64) :
    parseParticleLine i (splitWhitespace (intToStr id ++ [' '] ++
      intToStr st ++ [' '] ++ intToStr m.1 ++ [' '] ++ intToStr m.2 ++
      [' '] ++ intToStr c.1 ++ [' '] ++ intToStr c.2 ++ [' '] ++
      fmtF64 p.1 ++ [' '] ++ fmtF64 p.2.1 ++ [' '] ++ fmtF64 p.2.2.1 ++
      [' '] ++ fmtF64 p.2.2.2.1 ++ [' '] ++ fmtF64 p.2.2.2.2 ++ [' '] ++
      fmtF64 v ++ [' '] ++ fmtF64 sp ++ strOf "\n")) =
      .ok (id, st, m, c, p, v, sp) := by
  rw [sw_particleLine]
  simp only [parseParticleLine, List.getElem?_cons_zero,
    List.getElem?_cons_succ, parseEntry_int, parseEntryF64_fmt]
  rfl

lemma toLines_particleLine (id st : Int) (m c : Int × Int)
    (p : F64 × F64 × F64 × F64 × F64) (v sp : F64) :
    toLines (intToStr id ++ [' '] ++ intToStr st ++ [' '] ++
      intToStr m.1 ++ [' '] ++ intToStr m.2 ++ [' '] ++
      intToStr c.1 ++ [' '] ++ intToStr c.2 ++ [' '] ++
      fmtF64 p.1 ++ [' '] ++ fmtF64 p.2.1 ++ [' '] ++ fmtF64 p.2.2.1 ++
      [' '] ++ fmtF64 p.2.2.2.1 ++ [' '] ++ fmtF64 p.2.2.2.2 ++ [' '] ++
      fmtF64 v ++ [' '] ++ fmtF64 sp ++ strOf "\n") =
      [intToStr id ++ [' '] ++ intToStr st ++ [' '] ++
        intToStr m.1 ++ [' '] ++ intToStr m.2 ++ [' '] ++
        intToStr c.1 ++ [' '] ++ intToStr c.2 ++ [' '] ++
        fmtF64 p.1 ++ [' '] ++ fmtF64 p.2.1 ++ [' '] ++ fmtF64 p.2.2.1 ++
        [' '] ++ fmtF64 p.2.2.2.1 ++ [' '] ++ fmtF64 p.2.2.2.2 ++ [' '] ++
        fmtF64 v ++ [' '] ++ fmtF64 sp ++ strOf "\n"] := by
  have hA : '\n' ∉ (intToStr id ++ [' '] ++ intToStr st ++ [' '] ++
      intToStr m.1 ++ [' '] ++ intToStr m.2 ++ [' '] ++
      intToStr c.1 ++ [' '] ++ intToStr c.2 ++ [' '] ++
      fmtF64 p.1 ++ [' '] ++ fmtF64 p.2.1 ++ [' '] ++ fmtF64 p.2.2.1 ++
      [' '] ++ fmtF64 p.2.2.2.1 ++ [' '] ++ fmtF64 p.2.2.2.2 ++ [' '] ++
      fmtF64 v ++ [' '] ++ fmtF64 sp) := by
    repeat
      first
      | apply no_nl_append
      | exact no_nl_space
      | exact no_nl_of_noWsTok (intToStr_noWsTok _)
      | exact no_nl_of_noWsTok (fmtF64_noWsTok _)
  show toLines (_ ++ strOf "\n") = _
  rw [strOf_nl, toLines_line _ hA]

/-! ## Round-trip machinery: block decomposition (C1) -/

lemma endsNl_snoc_nl (a : Str) : endsNl (a ++ ['\n']) :=
  (endsNl_iff _).2 ⟨a, rfl⟩

lemma endsNl_strOf_nl (a : Str) : endsNl (a ++ strOf "\n") := by
  rw [strOf_nl]; exact endsNl_snoc_nl a

lemma toLines_append' {a : Str} (b : Str) (h : a = [] ∨ endsNl a) :
    toLines (a ++ b) = toLines a ++ toLines b := by
  rcases h with rfl | h
  · rfl
  · exact toLines_append a b h

lemma endsWithChar_nl_iff (s : Str) : endsWithChar s '\n' = true ↔ endsNl s := by
  simp [endsWithChar, endsNl]

lemma infoText_id {i : Str} (h : i = [] ∨ endsNl i) : infoText i = i := by
  rcases h with rfl | h
  · rfl
  · have hne : i ≠ [] := by
      intro hnil; subst hnil; simp [endsNl] at h
    unfold infoText
    rw [if_pos hne, if_neg (by simp [endsWithChar_nl_iff, h]), List.append_nil]

lemma infoText_endsNl (i : Str) : infoText i = [] ∨ endsNl (infoText i) := by
  unfold infoText
  by_cases hne : i ≠ []
  · rw [if_pos hne]
    right
    by_cases he : endsWithChar i '\n' = true
    · rw [if_neg (by simp [he]), List.append_nil]
      exact (endsWithChar_nl_iff i).1 he
    · rw [if_pos he, strOf_nl]
      exact endsNl_snoc_nl i
  · rw [if_neg hne]
    left; rfl

lemma subprocessLines_endsNl :
    ∀ (xs es ms : List F64) (ls : List Int),
      subprocessLines xs es ms ls = [] ∨ endsNl (subprocessLines xs es ms ls) := by
  intro xs
  induction xs with
  | nil => intro es ms ls; left; rfl
  | cons x xs ih =>
    intro es ms ls
    cases es with
    | nil => left; rfl
    | cons e es =>
    cases ms with
    | nil => left; rfl
    | cons m ms =>
    cases ls with
    | nil => left; rfl
    | cons l ls =>
    right
    rw [subprocessLines]
    rcases ih es ms ls with h | h
    · rw [h, List.append_nil]
      exact endsNl_strOf_nl _
    · exact endsNl_append _ _ h

lemma particleLines_endsNl :
    ∀ (ids sts : List Int) (ms cs : List (Int × Int))
      (ps : List (F64 × F64 × F64 × F64 × F64)) (vs sps : List F64),
      particleLines ids sts ms cs ps vs sps = [] ∨
        endsNl (particleLines ids sts ms cs ps vs sps) := by
  intro ids
  induction ids with
  | nil => intro sts ms cs ps vs sps; left; rfl
  | cons id ids ih =>
    intro sts ms cs ps vs sps
    cases sts with
    | nil => left; rfl
    | cons st sts =>
    cases ms with
    | nil => left; rfl
    | cons m ms =>
    cases cs with
    | nil => left; rfl
    | cons c cs =>
    cases ps with
    | nil => left; rfl
    | cons p ps =>
    cases vs with
    | nil => left; rfl
    | cons v vs =>
    cases sps with
    | nil => left; rfl
    | cons sp sps =>
    right
    rw [particleLines]
    rcases ih sts ms cs ps vs sps with h | h
    · rw [h, List.append_nil]
      exact endsNl_strOf_nl _
    · exact endsNl_append _ _ h

lemma parse_subprocesses_rt :
    ∀ (xs es ms : List F64) (ls : List Int) (i : Nat) (X : List Str),
      es.length = xs.length → ms.length = xs.length → ls.length = xs.length →
      parse_subprocesses xs.length i
          (toLines (subprocessLines xs es ms ls) ++ X) =
        (.ok (xs, es, ms, ls), X) := by
  intro xs
  induction xs with
  | nil =>
    intro es ms ls i X he hm hl
    obtain rfl : es = [] := List.length_eq_zero.mp he
    obtain rfl : ms = [] := List.length_eq_zero.mp hm
    obtain rfl : ls = [] := List.length_eq_zero.mp hl
    rfl
  | cons x xs ih =>
    intro es ms ls i X he hm hl
    cases es with
    | nil => simp at he
    | cons e es =>
    cases ms with
    | nil => simp at hm
    | cons m ms =>
    cases ls with
    | nil => simp at hl
    | cons l ls =>
    have hdec : toLines (subprocessLines (x :: xs) (e :: es) (m :: ms) (l :: ls)) =
        (fmtF64 x ++ [' '] ++ fmtF64 e ++ [' '] ++ fmtF64 m ++ [' '] ++
          intToStr l ++ strOf "\n") :: toLines (subprocessLines xs es ms ls) := by
      rw [subprocessLines, toLines_append _ _ (endsNl_strOf_nl _),
        toLines_subprocessLine]
      rfl
    rw [hdec, List.cons_append, List.length_cons, parse_subprocesses,
      readLineFst, readLineSnd, parseSubprocessLine_rt]
    simp only [ih es ms ls (i + 1) X (by simpa using he) (by simpa using hm)
      (by simpa using hl)]

lemma parse_particles_rt :
    ∀ (ids sts : List Int) (ms cs : List (Int × Int))
      (ps : List (F64 × F64 × F64 × F64 × F64)) (vs sps : List F64)
      (i : Nat) (X : List Str),
      sts.length = ids.length → ms.length = ids.length →
      cs.length = ids.length → ps.length = ids.length →
      vs.length = ids.length → sps.length = ids.length →
      parse_particles ids.length i
          (toLines (particleLines ids sts ms cs ps vs sps) ++ X) =
        (.ok (ids, sts, ms, cs, ps, vs, sps), X) := by
  intro ids
  induction ids with
  | nil =>
    intro sts ms cs ps vs sps i X h1 h2 h3 h4 h5 h6
    obtain rfl : sts = [] := List.length_eq_zero.mp h1
    obtain rfl : ms = [] := List.length_eq_zero.mp h2
    obtain rfl : cs = [] := List.length_eq_zero.mp h3
    obtain rfl : ps = [] := List.length_eq_zero.mp h4
    obtain rfl : vs = [] := List.length_eq_zero.mp h5
    obtain rfl : sps = [] := List.length_eq_zero.mp h6
    rfl
  | cons id ids ih =>
    intro sts ms cs ps vs sps i X h1 h2 h3 h4 h5 h6
    cases sts with
    | nil => simp at h1
    | cons st sts =>
    cases ms with
    | nil => simp at h2
    | cons m ms =>
    cases cs with
    | nil => simp at h3
    | cons c cs =>
    cases ps with
    | nil => simp at h4
    | cons p ps =>
    cases vs with
    | nil => simp at h5
    | cons v vs =>
    cases sps with
    | nil => simp at h6
    | cons sp sps =>
    have hdec : toLines (particleLines (id :: ids) (st :: sts) (m :: ms)
          (c :: cs) (p :: ps) (v :: vs) (sp :: sps)) =
        (intToStr id ++ [' '] ++ intToStr st ++ [' '] ++
          intToStr m.1 ++ [' '] ++ intToStr m.2 ++ [' '] ++
          intToStr c.1 ++ [' '] ++ intToStr c.2 ++ [' '] ++
          fmtF64 p.1 ++ [' '] ++ fmtF64 p.2.1 ++ [' '] ++ fmtF64 p.2.2.1 ++
          [' '] ++ fmtF64 p.2.2.2.1 ++ [' '] ++ fmtF64 p.2.2.2.2 ++ [' '] ++
          fmtF64 v ++ [' '] ++ fmtF64 sp ++ strOf "\n") ::
          toLines (particleLines ids sts ms cs ps vs sps) := by
      rw [particleLines, toLines_append _ _ (endsNl_strOf_nl _),
        toLines_particleLine]
      rfl
    rw [hdec, List.cons_append, List.length_cons, parse_particles,
      readLineFst, readLineSnd, parseParticleLine_rt]
    simp only [ih sts ms cs ps vs sps (i + 1) X (by simpa using h1)
      (by simpa using h2) (by simpa using h3) (by simpa using h4)
      (by simpa using h5) (by simpa using h6)]

lemma parse_init_rt (r : HEPRUP) (X : List Str)
    (hattr : r.attr = [])
    (hinfo : r.info = [] ∨ endsNl r.info)
    (hiend : ∀ l ∈ toLines r.info, l.dropLast ≠ INIT_END)
    (hn0 : 0 ≤ r.NPRUP) (hn31 : r.NPRUP < 2 ^ 31)
    (h1 : r.XSECUP.length = r.NPRUP.toNat)
    (h2 : r.XERRUP.length = r.NPRUP.toNat)
    (h3 : r.XMAXUP.length = r.NPRUP.toNat)
    (h4 : r.LPRUP.length = r.NPRUP.toNat) :
    parse_init (INIT_START ++ strOf ">\n")
        (toLines (initRecordLine r ++
          (subprocessLines r.XSECUP r.XERRUP r.XMAXUP r.LPRUP ++
            (infoText r.info ++ (INIT_END ++ strOf "\n")))) ++ X) =
      (.ok r, X) := by
  have hwf : ∀ l ∈ toLines r.info, wfLine l ∧ l.dropLast ≠ INIT_END := by
    intro l hl
    refine ⟨?_, hiend l hl⟩
    rcases hinfo with hz | hz
    · rw [hz] at hl; simp [toLines] at hl
    · exact toLines_wf r.info hz l hl
  rw [infoText_id hinfo]
  rw [toLines_append _ _ (endsNl_initRecordLine r), toLines_initRecordLine,
    toLines_append' _ (subprocessLines_endsNl _ _ _ _),
    toLines_append' _ hinfo,
    strOf_nl, toLines_line INIT_END (by decide)]
  simp only [List.append_assoc, List.singleton_append, List.cons_append,
    List.nil_append]
  simp only [parse_init, readLineFst, readLineSnd, parseInitRecord_rt]
  rw [show r.NPRUP.toNat = r.XSECUP.length from h1.symm]
  simp only [parse_subprocesses_rt r.XSECUP r.XERRUP r.XMAXUP r.LPRUP 0 _
    (h2.trans h1.symm) (h3.trans h1.symm) (h4.trans h1.symm)]
  simp only [init_info_ok (toLines r.info) X [] (Or.inl rfl) hwf,
    List.nil_append, toLines_flatten]
  have hx : extract_xml_attr (INIT_START ++ strOf ">\n") = .ok [] := by rfl
  simp only [hx]
  rw [← hattr]
  rw [if_neg (show ¬ 2 ^ 63 - 1 < 8 * castUsize r.NPRUP by
    unfold castUsize; omega)]

lemma parse_event_rt (e : HEPEUP) (X : List Str)
    (hattr : e.attr = [])
    (hinfo : e.info = [] ∨ endsNl e.info)
    (hiend : ∀ l ∈ toLines e.info, trim l.dropLast ≠ EVENT_END)
    (hn0 : 0 ≤ e.NUP) (hn31 : e.NUP < 2 ^ 31)
    (h1 : e.IDUP.length = e.NUP.toNat) (h2 : e.ISTUP.length = e.NUP.toNat)
    (h3 : e.MOTHUP.length = e.NUP.toNat) (h4 : e.ICOLUP.length = e.NUP.toNat)
    (h5 : e.PUP.length = e.NUP.toNat) (h6 : e.VTIMUP.length = e.NUP.toNat)
    (h7 : e.SPINUP.length = e.NUP.toNat) :
    parse_event (EVENT_START ++ strOf ">\n")
        (toLines (eventRecordLine e ++
          (particleLines e.IDUP e.ISTUP e.MOTHUP e.ICOLUP e.PUP e.VTIMUP
              e.SPINUP ++
            (infoText e.info ++ (EVENT_END ++ strOf "\n")))) ++ X) =
      (.ok e, X) := by
  have hwf : ∀ l ∈ toLines e.info, wfLine l ∧ trim l.dropLast ≠ EVENT_END := by
    intro l hl
    refine ⟨?_, hiend l hl⟩
    rcases hinfo with hz | hz
    · rw [hz] at hl; simp [toLines] at hl
    · exact toLines_wf e.info hz l hl
  rw [infoText_id hinfo]
  rw [toLines_append _ _ (endsNl_eventRecordLine e), toLines_eventRecordLine,
    toLines_append' _ (particleLines_endsNl _ _ _ _ _ _ _),
    toLines_append' _ hinfo,
    strOf_nl, toLines_line EVENT_END (by decide)]
  simp only [List.append_assoc, List.singleton_append, List.cons_append,
    List.nil_append]
  simp only [parse_event, readLineFst, readLineSnd, parseEventRecord_rt]
  rw [show e.NUP.toNat = e.IDUP.length from h1.symm]
  simp only [parse_particles_rt e.IDUP e.ISTUP e.MOTHUP e.ICOLUP e.PUP
    e.VTIMUP e.SPINUP 0 _ (h2.trans h1.symm) (h3.trans h1.symm)
    (h4.trans h1.symm) (h5.trans h1.symm) (h6.trans h1.symm)
    (h7.trans h1.symm)]
  simp only [event_info_ok (toLines e.info) X [] (Or.inl rfl) hwf,
    List.nil_append, toLines_flatten]
  have hx : extract_xml_attr (EVENT_START ++ strOf ">\n") = .ok [] := by rfl
  simp only [hx]
  rw [← hattr]
  rw [if_neg (show ¬ 2 ^ 63 - 1 < 40 * castUsize e.NUP by
    unfold castUsize; omega)]

lemma readerHepeup_event (e : HEPEUP) (X : List Str)
    (hattr : e.attr = [])
    (hinfo : e.info = [] ∨ endsNl e.info)
    (hiend : ∀ l ∈ toLines e.info, trim l.dropLast ≠ EVENT_END)
    (hn0 : 0 ≤ e.NUP) (hn31 : e.NUP < 2 ^ 31)
    (h1 : e.IDUP.length = e.NUP.toNat) (h2 : e.ISTUP.length = e.NUP.toNat)
    (h3 : e.MOTHUP.length = e.NUP.toNat) (h4 : e.ICOLUP.length = e.NUP.toNat)
    (h5 : e.PUP.length = e.NUP.toNat) (h6 : e.VTIMUP.length = e.NUP.toNat)
    (h7 : e.SPINUP.length = e.NUP.toNat) :
    readerHepeup (toLines (eventBlock e) ++ X) = (.ok (some e), X) := by
  have hblock : eventBlock e = (EVENT_START ++ strOf ">\n") ++
      (eventRecordLine e ++
        (particleLines e.IDUP e.ISTUP e.MOTHUP e.ICOLUP e.PUP e.VTIMUP
            e.SPINUP ++
          (infoText e.info ++ (EVENT_END ++ strOf "\n")))) := by
    rw [eventBlock, hattr]
    simp [attrsToStr, List.append_assoc]
  rw [hblock, toLines_append _ _ (by decide),
    show toLines (EVENT_START ++ strOf ">\n") = [EVENT_START ++ strOf ">\n"]
      from rfl]
  simp only [List.append_assoc, List.singleton_append, List.cons_append,
    List.nil_append]
  rw [readerHepeup_cons, if_pos (by decide)]
  simp only [parse_event_rt e X hattr hinfo hiend hn0 hn31 h1 h2 h3 h4 h5
    h6 h7]

lemma readEvents_rt :
    ∀ (es : List HEPEUP) (X : List Str),
      (∀ e ∈ es, e.attr = [] ∧ (e.info = [] ∨ endsNl e.info) ∧
        (∀ l ∈ toLines e.info, trim l.dropLast ≠ EVENT_END) ∧
        0 ≤ e.NUP ∧ e.NUP < 2 ^ 31 ∧
        e.IDUP.length = e.NUP.toNat ∧ e.ISTUP.length = e.NUP.toNat ∧
        e.MOTHUP.length = e.NUP.toNat ∧ e.ICOLUP.length = e.NUP.toNat ∧
        e.PUP.length = e.NUP.toNat ∧ e.VTIMUP.length = e.NUP.toNat ∧
        e.SPINUP.length = e.NUP.toNat) →
      readEvents (es.length + 1)
          (toLines ((es.map eventBlock).flatten) ++
            (LHEF_LAST_LINE ++ strOf "\n") :: X) =
        (.ok es, X) := by
  intro es
  induction es with
  | nil =>
    intro X _
    rw [show toLines (([] : List HEPEUP).map eventBlock).flatten = []
      from rfl, List.nil_append, readEvents, readerHepeup_cons,
      if_neg (by decide), if_pos (by decide)]
  | cons e es ih =>
    intro X hev
    obtain ⟨ha, hi, hie, h0, h31, hl1, hl2, hl3, hl4, hl5, hl6, hl7⟩ :=
      hev e (by simp)
    have hrest := ih X (fun x hx => hev x (by simp [hx]))
    rw [List.map_cons, List.flatten_cons,
      toLines_append _ _ (show endsNl (eventBlock e) from endsNl_strOf_nl _),
      List.append_assoc, List.length_cons, readEvents,
      readerHepeup_event e _ ha hi hie h0 h31 hl1 hl2 hl3 hl4 hl5 hl6 hl7]
    simp only [hrest]

lemma castUsize_toNat {n : Int} (h0 : 0 ≤ n) (h31 : n < 2 ^ 31) :
    castUsize n = n.toNat := by
  unfold castUsize
  omega

lemma writerHeader_ok (w : WriterM) (hh : Str)
    (hst : w.state = .ExpectingHeaderOrInit) :
    writerHeader w hh true =
      ({ w with out := w.out ++ headerBlock hh }, .ok ()) := by
  have ha : assert_state w .ExpectingHeaderOrInit (strOf "header") = .ok () := by
    simp [assert_state, hst]
  simp only [writerHeader, ha]
  simp [ok_unless_failed, hst]

lemma writerHeprup_ok (w : WriterM) (r : HEPRUP)
    (hst : w.state = .ExpectingHeaderOrInit)
    (hn0 : 0 ≤ r.NPRUP) (hn31 : r.NPRUP < 2 ^ 31)
    (hr1 : r.XSECUP.length = r.NPRUP.toNat)
    (hr2 : r.XERRUP.length = r.NPRUP.toNat)
    (hr3 : r.XMAXUP.length = r.NPRUP.toNat)
    (hr4 : r.LPRUP.length = r.NPRUP.toNat) :
    writerHeprup w r true =
      (⟨w.out ++ initBlock r, .ExpectingEventOrFinish⟩, .ok ()) := by
  have ha : assert_state w .ExpectingHeaderOrInit (strOf "init") = .ok () := by
    simp [assert_state, hst]
  simp only [writerHeprup, ha, castUsize_toNat hn0 hn31]
  rw [if_neg (by simp [hr1, hr2, hr3, hr4])]
  simp [ok_unless_failed, hst]

lemma writerHepeup_ok (w : WriterM) (e : HEPEUP)
    (hst : w.state = .ExpectingEventOrFinish)
    (h0 : 0 ≤ e.NUP) (h31 : e.NUP < 2 ^ 31)
    (h1 : e.IDUP.length = e.NUP.toNat) (h2 : e.ISTUP.length = e.NUP.toNat)
    (h3 : e.MOTHUP.length = e.NUP.toNat) (h4 : e.ICOLUP.length = e.NUP.toNat)
    (h5 : e.PUP.length = e.NUP.toNat) (h6 : e.VTIMUP.length = e.NUP.toNat)
    (h7 : e.SPINUP.length = e.NUP.toNat) :
    writerHepeup w e true =
      ({ w with out := w.out ++ eventBlock e }, .ok ()) := by
  have ha : assert_state w .ExpectingEventOrFinish (strOf "event") = .ok () := by
    simp [assert_state, hst]
  simp only [writerHepeup, ha, castUsize_toNat h0 h31]
  rw [if_neg (by simp [h1, h2, h3, h4, h5, h6, h7])]
  simp [ok_unless_failed, hst]

lemma writerFinish_ok (w : WriterM)
    (hst : w.state = .ExpectingEventOrFinish) :
    writerFinish w true =
      (⟨w.out ++ LHEF_LAST_LINE ++ strOf "\n", .Finished⟩, .ok ()) := by
  have ha : assert_state w .ExpectingEventOrFinish (strOf "finish") = .ok () := by
    simp [assert_state, hst]
  simp only [writerFinish, ha]
  simp [ok_unless_failed, hst]

lemma writeEvents_ok :
    ∀ (es : List HEPEUP) (w : WriterM),
      w.state = .ExpectingEventOrFinish →
      (∀ e ∈ es, 0 ≤ e.NUP ∧ e.NUP < 2 ^ 31 ∧
        e.IDUP.length = e.NUP.toNat ∧ e.ISTUP.length = e.NUP.toNat ∧
        e.MOTHUP.length = e.NUP.toNat ∧ e.ICOLUP.length = e.NUP.toNat ∧
        e.PUP.length = e.NUP.toNat ∧ e.VTIMUP.length = e.NUP.toNat ∧
        e.SPINUP.length = e.NUP.toNat) →
      writeEvents w es =
        (⟨w.out ++ (es.map eventBlock).flatten, w.state⟩, .ok ()) := by
  intro es
  induction es with
  | nil =>
    intro w hst _
    simp [writeEvents]
  | cons e es ih =>
    intro w hst hev
    obtain ⟨h0, h31, h1, h2, h3, h4, h5, h6, h7⟩ := hev e (by simp)
    rw [writeEvents]
    simp only [writerHepeup_ok w e hst h0 h31 h1 h2 h3 h4 h5 h6 h7]
    rw [ih _ (by simpa using hst) (fun x hx => hev x (by simp [hx]))]
    simp [List.append_assoc]

lemma writeSession_ok (v : Str) (h : Option Str) (r : HEPRUP)
    (es : List HEPEUP)
    (hn0 : 0 ≤ r.NPRUP) (hn31 : r.NPRUP < 2 ^ 31)
    (hr1 : r.XSECUP.length = r.NPRUP.toNat)
    (hr2 : r.XERRUP.length = r.NPRUP.toNat)
    (hr3 : r.XMAXUP.length = r.NPRUP.toNat)
    (hr4 : r.LPRUP.length = r.NPRUP.toNat)
    (hev : ∀ e ∈ es, 0 ≤ e.NUP ∧ e.NUP < 2 ^ 31 ∧
      e.IDUP.length = e.NUP.toNat ∧ e.ISTUP.length = e.NUP.toNat ∧
      e.MOTHUP.length = e.NUP.toNat ∧ e.ICOLUP.length = e.NUP.toNat ∧
      e.PUP.length = e.NUP.toNat ∧ e.VTIMUP.length = e.NUP.toNat ∧
      e.SPINUP.length = e.NUP.toNat) :
    writeSession v h r es =
      .ok (LHEF_TAG_OPEN ++ ['"'] ++ v ++ strOf "\">\n" ++
        h.elim [] headerBlock ++ initBlock r ++
        (es.map eventBlock).flatten ++ LHEF_LAST_LINE ++ strOf "\n") := by
  have hw0 : writerNew v true =
      .ok ⟨LHEF_TAG_OPEN ++ ['"'] ++ v ++ strOf "\">\n",
        .ExpectingHeaderOrInit⟩ := rfl
  cases h with
  | none =>
    simp only [writeSession, hw0, Option.elim, bind, Except.bind, pure,
      Except.pure, stepW,
      writerHeprup_ok
        (WriterM.mk (LHEF_TAG_OPEN ++ ['"'] ++ v ++ strOf "\">\n")
          .ExpectingHeaderOrInit) r rfl hn0 hn31 hr1 hr2 hr3 hr4,
      writeEvents_ok es
        (WriterM.mk (LHEF_TAG_OPEN ++ ['"'] ++ v ++ strOf "\">\n" ++
          initBlock r) .ExpectingEventOrFinish) rfl hev,
      writerFinish_ok
        (WriterM.mk (LHEF_TAG_OPEN ++ ['"'] ++ v ++ strOf "\">\n" ++
          initBlock r ++ (es.map eventBlock).flatten)
          .ExpectingEventOrFinish) rfl]
    simp [List.append_assoc]
  | some hh =>
    simp only [writeSession, hw0, Option.elim, bind, Except.bind, pure,
      Except.pure, stepW,
      writerHeader_ok
        (WriterM.mk (LHEF_TAG_OPEN ++ ['"'] ++ v ++ strOf "\">\n")
          .ExpectingHeaderOrInit) hh rfl,
      writerHeprup_ok
        (WriterM.mk (LHEF_TAG_OPEN ++ ['"'] ++ v ++ strOf "\">\n" ++
          headerBlock hh) .ExpectingHeaderOrInit) r rfl hn0 hn31
        hr1 hr2 hr3 hr4,
      writeEvents_ok es
        (WriterM.mk (LHEF_TAG_OPEN ++ ['"'] ++ v ++ strOf "\">\n" ++
          headerBlock hh ++ initBlock r) .ExpectingEventOrFinish) rfl hev,
      writerFinish_ok
        (WriterM.mk (LHEF_TAG_OPEN ++ ['"'] ++ v ++ strOf "\">\n" ++
          headerBlock hh ++ initBlock r ++ (es.map eventBlock).flatten)
          .ExpectingEventOrFinish) rfl]

lemma evBlocks_endsNl : ∀ (es : List HEPEUP),
    (es.map eventBlock).flatten = [] ∨ endsNl (es.map eventBlock).flatten := by
  intro es
  induction es with
  | nil => left; rfl
  | cons e es ih =>
    right
    rw [List.map_cons, List.flatten_cons]
    rcases ih with h | h
    · rw [h, List.append_nil]
      exact endsNl_strOf_nl _
    · exact endsNl_append _ _ h

lemma openLine_lines (v : Str)
    (hv : v = strOf "1.0" ∨ v = strOf "2.0" ∨ v = strOf "3.0") :
    toLines (LHEF_TAG_OPEN ++ ['"'] ++ v ++ strOf "\">\n") =
      [LHEF_TAG_OPEN ++ ['"'] ++ v ++ strOf "\">\n"] := by
  rcases hv with rfl | rfl | rfl <;> rfl

lemma openLine_endsNl (v : Str)
    (hv : v = strOf "1.0" ∨ v = strOf "2.0" ∨ v = strOf "3.0") :
    endsNl (LHEF_TAG_OPEN ++ ['"'] ++ v ++ strOf "\">\n") := by
  rcases hv with rfl | rfl | rfl <;> decide

lemma parse_version_rt (v : Str)
    (hv : v = strOf "1.0" ∨ v = strOf "2.0" ∨ v = strOf "3.0")
    (s : List Str) :
    parse_version ((LHEF_TAG_OPEN ++ '"' :: (v ++ strOf "\">\n")) :: s) =
      (.ok v, s) := by
  rcases hv with rfl | rfl | rfl <;> rfl

lemma parse_headerAux_init (fuel : Nat) (header : Str) (xml : Option Str)
    (rest : List Str) :
    parse_headerAux (fuel + 1) header xml
        ((INIT_START ++ strOf ">\n") :: rest) =
      (.ok (header, xml, INIT_START ++ strOf ">\n"), rest) := rfl

lemma parse_headerAux_comment (fuel : Nat) (header : Str) (xml : Option Str)
    (s s' : List Str) (acc : Str)
    (hr : read_lines_until COMMENT_END (COMMENT_START ++ strOf "\n") s =
      (.ok acc, s')) :
    parse_headerAux (fuel + 1) header xml
        ((COMMENT_START ++ strOf "\n") :: s) =
      parse_headerAux fuel acc xml s' := by
  simp only [parse_headerAux, readLine]
  rw [if_pos (by decide), if_neg (by decide), hr]

lemma parse_header_init (rest2 : List Str) :
    parse_header ((INIT_START ++ strOf ">\n") :: rest2) =
      (.ok ([], none, INIT_START ++ strOf ">\n"), rest2) := by
  unfold parse_header
  simp only [List.length_cons]
  exact parse_headerAux_init (rest2.length + 1) [] none rest2

lemma parse_header_comment (hh : Str) (rest2 : List Str)
    (hhl : ∀ l ∈ toLines (hh ++ strOf "\n"), trim l.dropLast ≠ COMMENT_END) :
    parse_header ((COMMENT_START ++ strOf "\n") ::
        (toLines (hh ++ strOf "\n") ++
          (COMMENT_END ++ strOf "\n") ::
            (INIT_START ++ strOf ">\n") :: rest2)) =
      (.ok (headerBlock hh, none, INIT_START ++ strOf ">\n"), rest2) := by
  unfold parse_header
  simp only [List.length_cons]
  rw [parse_headerAux_comment _ [] none _ _ _
    (read_lines_until_ok COMMENT_END (toLines (hh ++ strOf "\n"))
      ((INIT_START ++ strOf ">\n") :: rest2)
      (COMMENT_START ++ strOf "\n") (COMMENT_END ++ strOf "\n")
      (Or.inr (endsNl_strOf_nl _))
      (fun l hl => ⟨toLines_wf _ (endsNl_strOf_nl _) l hl, hhl l hl⟩)
      ⟨COMMENT_END, by decide, by decide⟩
      (by decide))]
  rw [parse_headerAux_init]
  rw [toLines_flatten]
  simp [headerBlock, List.append_assoc]

/-! ## Sequence-length invariants (C9) -/

lemma parse_subprocesses_len :
    ∀ (n i : Nat) (s : List Str) (q : List F64 × List F64 × List F64 × List Int)
      (s' : List Str),
      parse_subprocesses n i s = (.ok q, s') →
      q.1.length = n ∧ q.2.1.length = n ∧ q.2.2.1.length = n ∧
        q.2.2.2.length = n := by
  intro n
  induction n with
  | zero =>
    intro i s q s' h
    rw [parse_subprocesses] at h
    simp only [Prod.mk.injEq, Except.ok.injEq] at h
    obtain ⟨rfl, -⟩ := h
    simp
  | succ n ih =>
    intro i s q s' h
    rw [parse_subprocesses] at h
    cases hline : parseSubprocessLine i (splitWhitespace (readLine s).1) with
    | error e => rw [hline] at h; simp at h
    | ok tup =>
      obtain ⟨xs, xe, xm, lp⟩ := tup
      rw [hline] at h
      cases hrec : parse_subprocesses n (i + 1) (readLine s).2 with
      | mk exr s2 =>
        rw [hrec] at h
        cases exr with
        | error e => simp at h
        | ok quad =>
          obtain ⟨XS, XE, XM, LP⟩ := quad
          simp only [Prod.mk.injEq, Except.ok.injEq] at h
          obtain ⟨rfl, -⟩ := h
          obtain ⟨l1, l2, l3, l4⟩ :=
            ih (i + 1) (readLine s).2 (XS, XE, XM, LP) s2 hrec
          simp only at l1 l2 l3 l4
          simp [l1, l2, l3, l4]

lemma parse_particles_len :
    ∀ (n i : Nat) (s : List Str)
      (q : List Int × List Int × List (Int × Int) × List (Int × Int) ×
        List (F64 × F64 × F64 × F64 × F64) × List F64 × List F64)
      (s' : List Str),
      parse_particles n i s = (.ok q, s') →
      q.1.length = n ∧ q.2.1.length = n ∧ q.2.2.1.length = n ∧
        q.2.2.2.1.length = n ∧ q.2.2.2.2.1.length = n ∧
        q.2.2.2.2.2.1.length = n ∧ q.2.2.2.2.2.2.length = n := by
  intro n
  induction n with
  | zero =>
    intro i s q s' h
    rw [parse_particles] at h
    simp only [Prod.mk.injEq, Except.ok.injEq] at h
    obtain ⟨rfl, -⟩ := h
    simp
  | succ n ih =>
    intro i s q s' h
    rw [parse_particles] at h
    cases hline : parseParticleLine i (splitWhitespace (readLine s).1) with
    | error e => rw [hline] at h; simp at h
    | ok tup =>
      obtain ⟨idup, istup, moth, icol, pup, vtimup, spinup⟩ := tup
      rw [hline] at h
      cases hrec : parse_particles n (i + 1) (readLine s).2 with
      | mk exr s2 =>
        rw [hrec] at h
        cases exr with
        | error e => simp at h
        | ok tup7 =>
          obtain ⟨ID, IS, MO, IC, PU, VT, SP⟩ := tup7
          simp only [Prod.mk.injEq, Except.ok.injEq] at h
          obtain ⟨rfl, -⟩ := h
          obtain ⟨l1, l2, l3, l4, l5, l6, l7⟩ :=
            ih (i + 1) (readLine s).2 (ID, IS, MO, IC, PU, VT, SP) s2 hrec
          simp only at l1 l2 l3 l4 l5 l6 l7
          simp [l1, l2, l3, l4, l5, l6, l7]

lemma parse_init_lengths (init_open : Str) (s : List Str) (hr : HEPRUP)
    (s' : List Str) (h : parse_init init_open s = (.ok hr, s')) :
    (hr.XSECUP.length = hr.NPRUP.toNat ∧ hr.XERRUP.length = hr.NPRUP.toNat ∧
      hr.XMAXUP.length = hr.NPRUP.toNat ∧
      hr.LPRUP.length = hr.NPRUP.toNat) ∧
      ¬ 2 ^ 63 - 1 < 8 * castUsize hr.NPRUP := by
  unfold parse_init at h
  split at h
  · simp at h
  · rename_i idbmup ebmup pdfgup pdfsup idwtup nprup hrecord
    split at h
    · simp at h
    · rename_i hcap
      split at h
      · simp at h
      · rename_i xsecup xerrup xmaxup lprup s2 hsub
        split at h
        · simp at h
        · rename_i info s3 hinfo
          split at h
          · simp at h
          · rename_i attr hattr
            simp only [Prod.mk.injEq, Except.ok.injEq] at h
            obtain ⟨rfl, -⟩ := h
            exact ⟨parse_subprocesses_len nprup.toNat 0 _
              (xsecup, xerrup, xmaxup, lprup) s2 hsub, hcap⟩

lemma parse_event_lengths (event_open : Str) (s : List Str) (e : HEPEUP)
    (s' : List Str) (h : parse_event event_open s = (.ok e, s')) :
    (e.IDUP.length = e.NUP.toNat ∧ e.ISTUP.length = e.NUP.toNat ∧
      e.MOTHUP.length = e.NUP.toNat ∧ e.ICOLUP.length = e.NUP.toNat ∧
      e.PUP.length = e.NUP.toNat ∧ e.VTIMUP.length = e.NUP.toNat ∧
      e.SPINUP.length = e.NUP.toNat) ∧
      ¬ 2 ^ 63 - 1 < 40 * castUsize e.NUP := by
  unfold parse_event at h
  split at h
  · simp at h
  · rename_i nup idrup xwgtup scalup aqedup aqcdup hrecord
    split at h
    · simp at h
    · rename_i hcap
      split at h
      · simp at h
      · rename_i idup istup mothup icolup pup vtimup spinup s2 hpart
        split at h
        · simp at h
        · rename_i info s3 hinfo
          split at h
          · simp at h
          · rename_i attr hattr
            simp only [Prod.mk.injEq, Except.ok.injEq] at h
            obtain ⟨rfl, -⟩ := h
            exact ⟨parse_particles_len nup.toNat 0 _
              (idup, istup, mothup, icolup, pup, vtimup, spinup) s2 hpart,
              hcap⟩

/-- C9: the variable-length sequences of every `HEPRUP` a successful
`Reader::new` yields have length exactly `NPRUP`, and those of every
`HEPEUP` a successful `Reader::hepeup` yields have length exactly `NUP`.
A negative declared count is never accepted: the
`Vec::with_capacity(count as usize)` calls abort with a capacity-overflow
panic, since a negative `i32` casts to at least `2^64 - 2^31`.  The bound
hypotheses record that `NPRUP`/`NUP` are `i32` values (the source parses
them with `parse::<i32>`), as in the C5 statement. -/
theorem c9_reader_lengths :
    (∀ (stream : List Str) (rd : ReaderM) (s' : List Str),
      readerNew stream = (.ok rd, s') →
      -(2 ^ 31) ≤ rd.heprup.NPRUP → rd.heprup.NPRUP < 2 ^ 31 →
      (rd.heprup.XSECUP.length : Int) = rd.heprup.NPRUP ∧
      (rd.heprup.XERRUP.length : Int) = rd.heprup.NPRUP ∧
      (rd.heprup.XMAXUP.length : Int) = rd.heprup.NPRUP ∧
      (rd.heprup.LPRUP.length : Int) = rd.heprup.NPRUP) ∧
    (∀ (stream : List Str) (e : HEPEUP) (s' : List Str),
      readerHepeup stream = (.ok (some e), s') →
      -(2 ^ 31) ≤ e.NUP → e.NUP < 2 ^ 31 →
      (e.IDUP.length : Int) = e.NUP ∧ (e.ISTUP.length : Int) = e.NUP ∧
      (e.MOTHUP.length : Int) = e.NUP ∧ (e.ICOLUP.length : Int) = e.NUP ∧
      (e.PUP.length : Int) = e.NUP ∧ (e.VTIMUP.length : Int) = e.NUP ∧
      (e.SPINUP.length : Int) = e.NUP) := by
  constructor
  · intro stream rd s' h hlo hhi
    have hlen : (rd.heprup.XSECUP.length = rd.heprup.NPRUP.toNat ∧
        rd.heprup.XERRUP.length = rd.heprup.NPRUP.toNat ∧
        rd.heprup.XMAXUP.length = rd.heprup.NPRUP.toNat ∧
        rd.heprup.LPRUP.length = rd.heprup.NPRUP.toNat) ∧
        ¬ 2 ^ 63 - 1 < 8 * castUsize rd.heprup.NPRUP := by
      unfold readerNew at h
      split at h
      · simp at h
      · rename_i v s1 hv
        split at h
        · simp at h
        · rename_i header xml init_open s2 hh
          split at h
          · simp at h
          · rename_i hr2 s3 hi
            simp only [Prod.mk.injEq, Except.ok.injEq] at h
            obtain ⟨rfl, -⟩ := h
            exact parse_init_lengths init_open s2 hr2 s3 hi
    obtain ⟨⟨l1, l2, l3, l4⟩, hcap⟩ := hlen
    unfold castUsize at hcap
    refine ⟨?_, ?_, ?_, ?_⟩ <;> omega
  · intro stream e s' h hlo hhi
    have hlen : (e.IDUP.length = e.NUP.toNat ∧
        e.ISTUP.length = e.NUP.toNat ∧ e.MOTHUP.length = e.NUP.toNat ∧
        e.ICOLUP.length = e.NUP.toNat ∧ e.PUP.length = e.NUP.toNat ∧
        e.VTIMUP.length = e.NUP.toNat ∧ e.SPINUP.length = e.NUP.toNat) ∧
        ¬ 2 ^ 63 - 1 < 40 * castUsize e.NUP := by
      unfold readerHepeup at h
      split at h
      split at h
      · split at h
        · rename_i e2 s2 hpe
          simp only [Prod.mk.injEq, Except.ok.injEq, Option.some.injEq] at h
          obtain ⟨rfl, -⟩ := h
          exact parse_event_lengths _ _ _ s2 hpe
        · simp at h
      · split at h
        · simp at h
        · simp at h
    obtain ⟨⟨l1, l2, l3, l4, l5, l6, l7⟩, hcap⟩ := hlen
    unfold castUsize at hcap
    refine ⟨?_, ?_, ?_, ?_, ?_, ?_, ?_⟩ <;> omega

/-- C9 witness: the statement at the concrete streams `c9Stream` (run
information with `NPRUP = 1`, one-element sequences) and `c9EventStream`
(one event with `NUP = 1`, one-element sequences). -/
theorem c9_reader_lengths_witness :
    ((c9Reader.heprup.XSECUP.length : Int) = c9Reader.heprup.NPRUP ∧
      (c9Reader.heprup.XERRUP.length : Int) = c9Reader.heprup.NPRUP ∧
      (c9Reader.heprup.XMAXUP.length : Int) = c9Reader.heprup.NPRUP ∧
      (c9Reader.heprup.LPRUP.length : Int) = c9Reader.heprup.NPRUP) ∧
    ((c9Event.IDUP.length : Int) = c9Event.NUP ∧
      (c9Event.ISTUP.length : Int) = c9Event.NUP ∧
      (c9Event.MOTHUP.length : Int) = c9Event.NUP ∧
      (c9Event.ICOLUP.length : Int) = c9Event.NUP ∧
      (c9Event.PUP.length : Int) = c9Event.NUP ∧
      (c9Event.VTIMUP.length : Int) = c9Event.NUP ∧
      (c9Event.SPINUP.length : Int) = c9Event.NUP) :=
  ⟨c9_reader_lengths.1 c9Stream c9Reader [] (by decide) (by decide)
      (by decide),
    c9_reader_lengths.2 c9EventStream c9Event [] (by decide) (by decide)
      (by decide)⟩

/-- C1 (amended): a successful writer session (optional comment header, one
run-information block, a sequence of events, finish, all underlying writes
succeeding) produces a stream over which `Reader::new` succeeds and yields
the original version, no structured sub-header, and — under the side
conditions under which the serialized forms are actually re-readable and
identical (supported version; comment-header text with no line trimming to
the comment-closing tag; empty attribute maps; info text empty or
newline-terminated, with no info line equal to (init) or trimming to
(event) the closing tag; declared counts non-negative `i32` values matching
the sequence lengths) — a `HEPRUP` equal to the original and the original
event sequence field-for-field, `f64` bit patterns included.  The comment
header read back is the emitted block `<!--\n …\n-->\n` with its delimiter
lines, not the bare text handed to `Writer::header`. -/
theorem c1_round_trip (v : Str) (h : Option Str) (r : HEPRUP)
    (es : List HEPEUP)
    (hv : v = strOf "1.0" ∨ v = strOf "2.0" ∨ v = strOf "3.0")
    (hhdr : ∀ hh, h = some hh →
      ∀ l ∈ toLines (hh ++ strOf "\n"), trim l.dropLast ≠ COMMENT_END)
    (hattr : r.attr = [])
    (hinfo : r.info = [] ∨ endsNl r.info)
    (hiend : ∀ l ∈ toLines r.info, l.dropLast ≠ INIT_END)
    (hn0 : 0 ≤ r.NPRUP) (hn31 : r.NPRUP < 2 ^ 31)
    (hr1 : r.XSECUP.length = r.NPRUP.toNat)
    (hr2 : r.XERRUP.length = r.NPRUP.toNat)
    (hr3 : r.XMAXUP.length = r.NPRUP.toNat)
    (hr4 : r.LPRUP.length = r.NPRUP.toNat)
    (hev : ∀ e ∈ es, e.attr = [] ∧ (e.info = [] ∨ endsNl e.info) ∧
      (∀ l ∈ toLines e.info, trim l.dropLast ≠ EVENT_END) ∧
      0 ≤ e.NUP ∧ e.NUP < 2 ^ 31 ∧
      e.IDUP.length = e.NUP.toNat ∧ e.ISTUP.length = e.NUP.toNat ∧
      e.MOTHUP.length = e.NUP.toNat ∧ e.ICOLUP.length = e.NUP.toNat ∧
      e.PUP.length = e.NUP.toNat ∧ e.VTIMUP.length = e.NUP.toNat ∧
      e.SPINUP.length = e.NUP.toNat) :
    ∃ out s',
      writeSession v h r es = .ok out ∧
      readerNew (toLines out) =
        (.ok ⟨v, h.elim [] headerBlock, none, r⟩, s') ∧
      readEvents (es.length + 1) s' = (.ok es, []) := by
  have hevW : ∀ e ∈ es, 0 ≤ e.NUP ∧ e.NUP < 2 ^ 31 ∧
      e.IDUP.length = e.NUP.toNat ∧ e.ISTUP.length = e.NUP.toNat ∧
      e.MOTHUP.length = e.NUP.toNat ∧ e.ICOLUP.length = e.NUP.toNat ∧
      e.PUP.length = e.NUP.toNat ∧ e.VTIMUP.length = e.NUP.toNat ∧
      e.SPINUP.length = e.NUP.toNat := by
    intro e he
    obtain ⟨-, -, -, h0, h31, h1, h2, h3, h4, h5, h6, h7⟩ := hev e he
    exact ⟨h0, h31, h1, h2, h3, h4, h5, h6, h7⟩
  have hsess := writeSession_ok v h r es hn0 hn31 hr1 hr2 hr3 hr4 hevW
  have hIB : initBlock r = (INIT_START ++ strOf ">\n") ++
      (initRecordLine r ++
        (subprocessLines r.XSECUP r.XERRUP r.XMAXUP r.LPRUP ++
          (infoText r.info ++ (INIT_END ++ strOf "\n")))) := by
    rw [initBlock, hattr]
    simp [initAttrsToStr, List.append_assoc]
  have hTAILI : endsNl (initRecordLine r ++
      (subprocessLines r.XSECUP r.XERRUP r.XMAXUP r.LPRUP ++
        (infoText r.info ++ (INIT_END ++ strOf "\n")))) :=
    endsNl_append _ _ (endsNl_append _ _ (endsNl_append _ _
      (endsNl_strOf_nl _)))
  cases h with
  | none =>
    refine ⟨_, toLines ((es.map eventBlock).flatten) ++
      [LHEF_LAST_LINE ++ strOf "\n"], hsess, ?_, ?_⟩
    · have hOUT : LHEF_TAG_OPEN ++ ['"'] ++ v ++ strOf "\">\n" ++
          Option.elim none [] headerBlock ++ initBlock r ++
          (es.map eventBlock).flatten ++ LHEF_LAST_LINE ++ strOf "\n" =
        (LHEF_TAG_OPEN ++ ['"'] ++ v ++ strOf "\">\n") ++
          ((INIT_START ++ strOf ">\n") ++
            ((initRecordLine r ++
              (subprocessLines r.XSECUP r.XERRUP r.XMAXUP r.LPRUP ++
                (infoText r.info ++ (INIT_END ++ strOf "\n")))) ++
              ((es.map eventBlock).flatten ++
                (LHEF_LAST_LINE ++ strOf "\n")))) := by
        rw [hIB]
        simp [Option.elim, List.append_assoc]
      rw [hOUT, toLines_append _ _ (openLine_endsNl v hv), openLine_lines v hv,
        toLines_append _ _ (show endsNl (INIT_START ++ strOf ">\n") by decide),
        show toLines (INIT_START ++ strOf ">\n") = [INIT_START ++ strOf ">\n"]
          from rfl,
        toLines_append _ _ hTAILI,
        toLines_append' _ (evBlocks_endsNl es),
        show toLines (LHEF_LAST_LINE ++ strOf "\n") =
          [LHEF_LAST_LINE ++ strOf "\n"] from rfl]
      simp only [List.append_assoc, List.singleton_append, List.cons_append,
        List.nil_append]
      simp only [readerNew, parse_version_rt v hv, parse_header_init,
        parse_init_rt r (toLines ((es.map eventBlock).flatten) ++
          [LHEF_LAST_LINE ++ strOf "\n"]) hattr hinfo hiend hn0 hn31
          hr1 hr2 hr3 hr4]
      rfl
    · exact readEvents_rt es [] hev
  | some hh =>
    refine ⟨_, toLines ((es.map eventBlock).flatten) ++
      [LHEF_LAST_LINE ++ strOf "\n"], hsess, ?_, ?_⟩
    · have hOUT : LHEF_TAG_OPEN ++ ['"'] ++ v ++ strOf "\">\n" ++
          Option.elim (some hh) [] headerBlock ++ initBlock r ++
          (es.map eventBlock).flatten ++ LHEF_LAST_LINE ++ strOf "\n" =
        (LHEF_TAG_OPEN ++ ['"'] ++ v ++ strOf "\">\n") ++
          ((COMMENT_START ++ strOf "\n") ++
            ((hh ++ strOf "\n") ++
              ((COMMENT_END ++ strOf "\n") ++
                ((INIT_START ++ strOf ">\n") ++
                  ((initRecordLine r ++
                    (subprocessLines r.XSECUP r.XERRUP r.XMAXUP r.LPRUP ++
                      (infoText r.info ++ (INIT_END ++ strOf "\n")))) ++
                    ((es.map eventBlock).flatten ++
                      (LHEF_LAST_LINE ++ strOf "\n"))))))) := by
        rw [hIB]
        simp [Option.elim, headerBlock, List.append_assoc]
      rw [hOUT, toLines_append _ _ (openLine_endsNl v hv), openLine_lines v hv,
        toLines_append _ _ (show endsNl (COMMENT_START ++ strOf "\n")
          by decide),
        show toLines (COMMENT_START ++ strOf "\n") =
          [COMMENT_START ++ strOf "\n"] from rfl,
        toLines_append _ _ (endsNl_strOf_nl hh),
        toLines_append _ _ (show endsNl (COMMENT_END ++ strOf "\n")
          by decide),
        show toLines (COMMENT_END ++ strOf "\n") =
          [COMMENT_END ++ strOf "\n"] from rfl,
        toLines_append _ _ (show endsNl (INIT_START ++ strOf ">\n") by decide),
        show toLines (INIT_START ++ strOf ">\n") = [INIT_START ++ strOf ">\n"]
          from rfl,
        toLines_append _ _ hTAILI,
        toLines_append' _ (evBlocks_endsNl es),
        show toLines (LHEF_LAST_LINE ++ strOf "\n") =
          [LHEF_LAST_LINE ++ strOf "\n"] from rfl]
      simp only [List.append_assoc, List.singleton_append, List.cons_append,
        List.nil_append]
      simp only [readerNew, parse_version_rt v hv,
        parse_header_comment hh (toLines (initRecordLine r ++
            (subprocessLines r.XSECUP r.XERRUP r.XMAXUP r.LPRUP ++
              (infoText r.info ++ (INIT_END ++ strOf "\n")))) ++
          (toLines ((es.map eventBlock).flatten) ++
            [LHEF_LAST_LINE ++ strOf "\n"])) (hhdr hh rfl),
        parse_init_rt r (toLines ((es.map eventBlock).flatten) ++
          [LHEF_LAST_LINE ++ strOf "\n"]) hattr hinfo hiend hn0 hn31
          hr1 hr2 hr3 hr4]
      rfl
    · exact readEvents_rt es [] hev

/-- C1 counterexample: write a session with version `"1.0"`, comment header
text `"x"`, the sample run information and no events; reading the produced
stream back succeeds, but the header the reader yields is the whole
delimited comment block `"<!--\nx\n-->\n"`, not the original text `"x"` —
so the round trip does not return a header equal to the original. -/
theorem c1_counterexample :
    (writeSession (strOf "1.0") (some (strOf "x")) sampleHeprup []).map
        (fun out => (readerNew (toLines out)).1) =
      .ok (.ok ⟨strOf "1.0", strOf "<!--\nx\n-->\n", none, sampleHeprup⟩) ∧
    strOf "<!--\nx\n-->\n" ≠ strOf "x" := by
  constructor
  · decide
  · decide

/-- C1 witness: the amended round trip at version `"1.0"`, comment header
`"x"`, the sample run information and the single sample event. -/
theorem c1_round_trip_witness :
    ∃ out s',
      writeSession (strOf "1.0") (some (strOf "x")) sampleHeprup
          [sampleHepeup] = .ok out ∧
      readerNew (toLines out) =
        (.ok ⟨strOf "1.0", Option.elim (some (strOf "x")) [] headerBlock,
          none, sampleHeprup⟩, s') ∧
      readEvents ([sampleHepeup].length + 1) s' = (.ok [sampleHepeup], []) :=
  c1_round_trip (strOf "1.0") (some (strOf "x")) sampleHeprup [sampleHepeup]
    (Or.inl rfl)
    (by
      intro hh hhe
      obtain rfl : strOf "x" = hh := by injection hhe
      decide)
    (by decide) (Or.inl rfl) (by decide) (by decide) (by decide)
    (by decide) (by decide) (by decide) (by decide)
    (by decide)

end LHEF
